import Mathlib

/-!
# Verification of the Substrait ⇄ Velox plan converter

A shallow embedding of the bidirectional plan translator found in
`velox/substrait`:

* inbound conversion (`SubstraitToVeloxPlan.cpp`): aggregation step
  derivation, filter-range folding (`FilterInfo`, `toVeloxFilter`,
  `flattenConditions`), join-key decomposition (`extractJoinKeys`),
  the recursive relation converter (`toVeloxPlan` overloads);
* outbound conversion (`VeloxToSubstraitPlan.cpp`): aggregation phase
  mapping, the node-kind dispatcher, the join emitter;
* the if/then call converter (`VeloxToSubstraitCallConverter.cpp`);
* the extension-catalog decoder (`SubstraitExtension.cpp`) together with
  a model of the yaml-cpp decode/`as` discipline it relies on.

Machine integers are modelled as `Int` with explicit wrapping where the
C++ code truncates; fallible code returns `Option` (an exception, a
`VELOX_FAIL`/`VELOX_NYI`/`VELOX_UNSUPPORTED`, or undefined behaviour such
as an out-of-bounds access is `none`).  Components of the repository that
the translation depends on but whose sources are not part of the
translator itself (the expression converter, `SubstraitParser`,
`join::fromProto`) are modelled from the specification and marked as such
in their doc comments.
-/

/-- `core::AggregationNode::Step`, the closed native enum of aggregation
steps. -/
inductive AggregationStep where
  | kPartial
  | kFinal
  | kIntermediate
  | kSingle
deriving DecidableEq, Repr

/-- `::substrait::AggregationPhase`, the interchange enum of aggregation
phases (the proto also carries an `UNSPECIFIED` member). -/
inductive AggregationPhase where
  | unspecified
  | initialToIntermediate
  | intermediateToIntermediate
  | initialToResult
  | intermediateToResult
deriving DecidableEq, Repr

/-- Substrait type kinds used by the converter (a closed slice of the
interchange type universe; `unknown` stands for the user-defined
placeholder type). -/
inductive SType where
  | boolT
  | i32
  | i64
  | fp64
  | stringT
  | unknown
deriving DecidableEq, Repr

/-- `::substrait::Expression_Literal`.  The numeric payload is modelled
as `Int`; `complexLit` stands for a literal whose decoded constant holds
a value vector (a struct/array literal). -/
inductive SLit where
  | fp64 (v : Int)
  | i64 (v : Int)
  | boolean (b : Bool)
  | complexLit
deriving DecidableEq, Repr

/-- `Expression_Literal::fp64()`: the proto oneof accessor returns the
payload when the literal holds an `fp64`, and the default `0` otherwise. -/
def SLit.fp64Of : SLit → Int
  | .fp64 v => v
  | _ => 0

/-- The Velox type of the constant a literal decodes to. -/
def SLit.typeOf : SLit → SType
  | .fp64 _ => .fp64
  | .i64 _ => .i64
  | .boolean _ => .boolT
  | .complexLit => .unknown

/-- `::substrait::Expression` (the rex kinds the converter consumes):
a field reference carrying the parsed direct-reference index, a literal,
or a scalar-function call. -/
inductive SExpr where
  | selection (idx : Nat)
  | literal (lit : SLit)
  | scalarFunc (ref : Nat) (args : List SExpr) (outputType : SType)

/-- The `.selection()` proto accessor: the field-reference payload when
the expression is a selection, and the default (unset) instance
otherwise, modelled as `none`. -/
def SExpr.selectionMsg : SExpr → Option Nat
  | .selection i => some i
  | _ => none

/-- `AggregateRel_Measure` and its embedded `AggregateFunction`:
an optional filter (the aggregation mask), the declared phase, the
function anchor, the argument expressions and the declared output type. -/
structure SMeasure where
  filter : Option SExpr
  phase : AggregationPhase
  functionReference : Nat
  arguments : List SExpr
  outputType : SType

/-- The plan's anchor → function-name table built by
`constructFunctionMap` from the extension header. -/
abbrev FunctionMap := List (Nat × String)

/-- Modelled from the spec: `SubstraitParser::findFunctionSpec` (not under
`src/`) resolves a function anchor through the plan's own anchor → name
table; an anchor absent from the table is fatal. -/
def findFunctionSpec (fm : FunctionMap) (id : Nat) : Option String :=
  fm.lookup id

/-- Modelled from the spec: `getNameBeforeDelimiter` (TypeUtils, not under
`src/`) returns the portion of a mapped name before the first occurrence
of the delimiter. -/
def getNameBeforeDelimiter (s : String) (delim : Char) : String :=
  (s.data.takeWhile (fun c => c ≠ delim)).asString

/-- `toAggregationStep` (`SubstraitToVeloxPlan.cpp`): when no measure
exists the step is Single; otherwise the first measure's declared phase
selects the step, and an unsupported phase is fatal. -/
def toAggregationStep (measures : List SMeasure) : Option AggregationStep :=
  match measures with
  | [] => some .kSingle
  | firstMeasure :: _ =>
    match firstMeasure.phase with
    | .initialToIntermediate => some .kPartial
    | .intermediateToIntermediate => some .kIntermediate
    | .intermediateToResult => some .kFinal
    | .initialToResult => some .kSingle
    | _ => none

/-- `toAggregationPhase` (`VeloxToSubstraitPlan.cpp`): the outbound step →
phase mapping.  The native enum is closed, so every step is mapped. -/
def toAggregationPhase (step : AggregationStep) : AggregationPhase :=
  match step with
  | .kPartial => .initialToIntermediate
  | .kIntermediate => .intermediateToIntermediate
  | .kSingle => .initialToResult
  | .kFinal => .intermediateToResult

/-- C1: the aggregation-phase mapping is a bijection between native steps
and supported interchange phases.  Outbound-then-inbound (the step mapped
to a phase, read back as the phase of the first measure) returns the same
step, and inbound-then-outbound returns the same phase for every phase
that the inbound switch supports. -/
theorem c1_aggregation_phase_bijection :
    (∀ (s : AggregationStep) (m : SMeasure) (ms : List SMeasure),
      m.phase = toAggregationPhase s → toAggregationStep (m :: ms) = some s) ∧
    (∀ (p : AggregationPhase) (s : AggregationStep) (m : SMeasure)
      (ms : List SMeasure),
      m.phase = p → toAggregationStep (m :: ms) = some s →
        toAggregationPhase s = p) := by
  constructor
  · intro s m ms h
    cases s <;> simp [toAggregationStep, h, toAggregationPhase]
  · intro p s m ms hp hs
    subst hp
    cases hphase : m.phase <;>
      simp [toAggregationStep, hphase] at hs <;>
      simp [← hs, toAggregationPhase, hphase]

/-- Witness for C1 at a concrete measure: a Partial step round-trips
through the Initial-to-Intermediate phase. -/
theorem c1_aggregation_phase_bijection_witness :
    toAggregationStep
      [⟨none, .initialToIntermediate, 0, [], .fp64⟩] = some .kPartial ∧
    toAggregationPhase .kPartial = .initialToIntermediate :=
  ⟨c1_aggregation_phase_bijection.1 .kPartial
      ⟨none, .initialToIntermediate, 0, [], .fp64⟩ [] rfl,
    c1_aggregation_phase_bijection.2 .initialToIntermediate .kPartial
      ⟨none, .initialToIntermediate, 0, [], .fp64⟩ [] rfl rfl⟩

/-- `Expression_ScalarFunction`: function anchor, argument expressions and
declared output type. -/
structure SScalarFunction where
  functionReference : Nat
  arguments : List SExpr
  outputType : SType

/-- Option-valued `mapM` over a list, failing at the first element the
function rejects (the shape of every fail-fast conversion loop in the
converter). -/
def mapMOpt (f : α → Option β) : List α → Option (List β)
  | [] => some []
  | a :: as =>
    match f a with
    | none => none
    | some b =>
      match mapMOpt f as with
      | none => none
      | some bs => some (b :: bs)

/-- `FilterInfo` (`SubstraitToVeloxPlan.cpp`): the per-column range
accumulator used for filter pushdown. -/
structure FilterInfo where
  left_ : Option Int := none
  right_ : Option Int := none
  nullAllowed_ : Bool := true
  leftExclusive_ : Bool := false
  rightExclusive_ : Bool := false
  isInitialized_ : Bool := false
deriving DecidableEq, Repr

/-- `FilterInfo::setLeft`: overwrite the lower bound and its
exclusivity. -/
def FilterInfo.setLeft (info : FilterInfo) (left : Int) (isExclusive : Bool) :
    FilterInfo :=
  { info with
      left_ := some left
      leftExclusive_ := isExclusive
      isInitialized_ := true }

/-- `FilterInfo::setRight`: overwrite the upper bound and its
exclusivity. -/
def FilterInfo.setRight (info : FilterInfo) (right : Int) (isExclusive : Bool) :
    FilterInfo :=
  { info with
      right_ := some right
      rightExclusive_ := isExclusive
      isInitialized_ := true }

/-- `FilterInfo::forbidsNull`: disallow nulls for the column. -/
def FilterInfo.forbidsNull (info : FilterInfo) : FilterInfo :=
  { info with nullAllowed_ := false, isInitialized_ := true }

/-- `common::DoubleRange`: the filter emitted per initialized column.
Bound values are `Int` (the claims never exercise fractional bounds); an
unbounded side carries the default `0`, mirroring the value the C++ code
leaves unread. -/
structure DoubleRange where
  lower : Int
  lowerUnbounded : Bool
  lowerExclusive : Bool
  upper : Int
  upperUnbounded : Bool
  upperExclusive : Bool
  nullAllowed : Bool
deriving DecidableEq, Repr

/-- The per-column filter-construction loop body of `toVeloxFilter`: an
initialized accumulator becomes a `DoubleRange`, an untouched column
produces no filter. -/
def buildDoubleRange (info : FilterInfo) : Option DoubleRange :=
  if info.isInitialized_ then
    some
      { lower := info.left_.getD 0
        lowerUnbounded := info.left_.isNone
        lowerExclusive := info.left_.isSome && info.leftExclusive_
        upper := info.right_.getD 0
        upperUnbounded := info.right_.isNone
        upperExclusive := info.right_.isSome && info.rightExclusive_
        nullAllowed := info.nullAllowed_ }
  else none

/-- The argument scan inside `toVeloxFilter`'s leaf loop: a selection sets
the column index, a literal sets the (fp64) value, any other rex kind is
fatal.  The two slots start out unset, modelling the uninitialized local
variables of the C++ code. -/
def scanFilterArgs : List SExpr → Option Nat × Option Int →
    Option (Option Nat × Option Int)
  | [], st => some st
  | arg :: rest, (colIdx, val) =>
    match arg with
    | .selection i => scanFilterArgs rest (some i, val)
    | .literal l => scanFilterArgs rest (colIdx, some l.fp64Of)
    | _ => none

/-- Point update of the column-index → `FilterInfo` map
(`colInfoMap[colIdx]->...`; `std::unordered_map::operator[]`
default-inserts, so the map is total). -/
def updateColInfo (m : Nat → FilterInfo) (c : Nat)
    (g : FilterInfo → FilterInfo) : Nat → FilterInfo :=
  fun i => if i = c then g (m i) else m i

/-- One iteration of `toVeloxFilter`'s leaf-folding loop: resolve the
function name, scan the arguments, and dispatch on the mapped name;
an unsupported name is fatal, and a leaf that never set the slot a case
reads would read an uninitialized local (undefined behaviour, modelled as
failure). -/
def foldFilterLeaf (fm : FunctionMap) (m : Nat → FilterInfo)
    (scalarFunction : SScalarFunction) : Option (Nat → FilterInfo) :=
  match findFunctionSpec fm scalarFunction.functionReference with
  | none => none
  | some filterNameSpec =>
    let filterName := getNameBeforeDelimiter filterNameSpec ':'
    match scanFilterArgs scalarFunction.arguments (none, none) with
    | none => none
    | some (colIdx, val) =>
      if filterName = "is_not_null" then
        match colIdx with
        | some c => some (updateColInfo m c FilterInfo.forbidsNull)
        | none => none
      else if filterName = "gte" then
        match colIdx, val with
        | some c, some v =>
          some (updateColInfo m c (FilterInfo.setLeft · v false))
        | _, _ => none
      else if filterName = "gt" then
        match colIdx, val with
        | some c, some v =>
          some (updateColInfo m c (FilterInfo.setLeft · v true))
        | _, _ => none
      else if filterName = "lte" then
        match colIdx, val with
        | some c, some v =>
          some (updateColInfo m c (FilterInfo.setRight · v false))
        | _, _ => none
      else if filterName = "lt" then
        match colIdx, val with
        | some c, some v =>
          some (updateColInfo m c (FilterInfo.setRight · v true))
        | _, _ => none
      else none

/-- The whole leaf-folding loop of `toVeloxFilter`, over the flattened
conjunction in order. -/
def constructColInfo (fm : FunctionMap)
    (scalarFunctions : List SScalarFunction) (colInfoMap : Nat → FilterInfo) :
    Option (Nat → FilterInfo) :=
  scalarFunctions.foldlM (foldFilterLeaf fm) colInfoMap

/-- `flattenConditions` (`SubstraitToVeloxPlan.cpp`): recursively split a
top-level conjunction into its scalar-function leaves, in left-to-right
order; a non-scalar-function rex is fatal. -/
def flattenConditions (fm : FunctionMap) : SExpr → Option (List SScalarFunction)
  | .scalarFunc ref args ty =>
    match findFunctionSpec fm ref with
    | none => none
    | some filterNameSpec =>
      if getNameBeforeDelimiter filterNameSpec ':' = "and" then
        flattenAll args
      else some [⟨ref, args, ty⟩]
  | _ => none
where flattenAll : List SExpr → Option (List SScalarFunction)
  | [] => some []
  | sCondition :: rest =>
    match flattenConditions fm sCondition, flattenAll rest with
    | some l1, some l2 => some (l1 ++ l2)
    | _, _ => none

/-- The initial column map of `toVeloxFilter`: every column starts with a
default-constructed `FilterInfo`. -/
def initColInfoMap : Nat → FilterInfo := fun _ => {}

/-- `toVeloxFilter` (`SubstraitToVeloxPlan.cpp`): flatten the condition,
fold every leaf into the per-column accumulators, then emit one
`DoubleRange` per initialized column, keyed by the column's input name. -/
def toVeloxFilter (fm : FunctionMap) (inputNameList : List String)
    (inputTypeList : List SType) (substraitFilter : SExpr) :
    Option (List (String × DoubleRange)) :=
  match flattenConditions fm substraitFilter with
  | none => none
  | some scalarFunctions =>
    match constructColInfo fm scalarFunctions initColInfoMap with
    | none => none
    | some colInfoMap =>
      some ((List.range inputNameList.length).filterMap fun idx =>
        (buildDoubleRange (colInfoMap idx)).map
          fun r => (inputNameList.getD idx "", r))

/-- The anchor → name table used by the range-folding statements, with
one anchor per comparison function. -/
def fmFilter : FunctionMap :=
  [(0, "and:bool_bool"), (1, "gte:fp64_fp64"), (2, "lt:fp64_fp64"),
   (3, "is_not_null:fp64"), (4, "gt:fp64_fp64"), (5, "lte:fp64_fp64")]

/-- A `gte(col, v)` comparison leaf. -/
def gteLeaf (col : Nat) (v : Int) : SScalarFunction :=
  ⟨1, [.selection col, .literal (.fp64 v)], .boolT⟩

/-- An `lt(col, v)` comparison leaf. -/
def ltLeaf (col : Nat) (v : Int) : SScalarFunction :=
  ⟨2, [.selection col, .literal (.fp64 v)], .boolT⟩

/-- An `is_not_null(col)` leaf. -/
def isNotNullLeaf (col : Nat) : SScalarFunction :=
  ⟨3, [.selection col], .boolT⟩

/-- A `gt(col, v)` comparison leaf. -/
def gtLeaf (col : Nat) (v : Int) : SScalarFunction :=
  ⟨4, [.selection col, .literal (.fp64 v)], .boolT⟩

/-- An `lte(col, v)` comparison leaf. -/
def lteLeaf (col : Nat) (v : Int) : SScalarFunction :=
  ⟨5, [.selection col, .literal (.fp64 v)], .boolT⟩

theorem foldFilterLeaf_gte (m : Nat → FilterInfo) (col : Nat) (v : Int) :
    foldFilterLeaf fmFilter m (gteLeaf col v) =
      some (updateColInfo m col (FilterInfo.setLeft · v false)) := rfl

theorem foldFilterLeaf_gt (m : Nat → FilterInfo) (col : Nat) (v : Int) :
    foldFilterLeaf fmFilter m (gtLeaf col v) =
      some (updateColInfo m col (FilterInfo.setLeft · v true)) := rfl

theorem foldFilterLeaf_lte (m : Nat → FilterInfo) (col : Nat) (v : Int) :
    foldFilterLeaf fmFilter m (lteLeaf col v) =
      some (updateColInfo m col (FilterInfo.setRight · v false)) := rfl

theorem foldFilterLeaf_lt (m : Nat → FilterInfo) (col : Nat) (v : Int) :
    foldFilterLeaf fmFilter m (ltLeaf col v) =
      some (updateColInfo m col (FilterInfo.setRight · v true)) := rfl

theorem foldFilterLeaf_isNotNull (m : Nat → FilterInfo) (col : Nat) :
    foldFilterLeaf fmFilter m (isNotNullLeaf col) =
      some (updateColInfo m col FilterInfo.forbidsNull) := rfl

/-- A fail-fast fold whose step never fails computes the underlying pure
fold. -/
theorem foldlM_eq_foldl_of_total (f : β → α → Option β) (l : List α)
    (h : ∀ x ∈ l, ∀ m, (f m x).isSome) (init : β) :
    List.foldlM f init l =
      some (List.foldl (fun m x => (f m x).getD m) init l) := by
  induction l generalizing init with
  | nil => rfl
  | cons a as ih =>
    obtain ⟨b, hb⟩ := Option.isSome_iff_exists.mp (h a (by simp) init)
    have hrest := ih (fun x hx m => h x (by simp [hx]) m)
    simp [List.foldlM_cons, hb, hrest]

/-- Updates of the same column commute whenever the two accumulator
actions commute. -/
theorem updateColInfo_comm (m : Nat → FilterInfo) (c : Nat)
    (g1 g2 : FilterInfo → FilterInfo)
    (h : ∀ info, g1 (g2 info) = g2 (g1 info)) :
    updateColInfo (updateColInfo m c g1) c g2 =
      updateColInfo (updateColInfo m c g2) c g1 := by
  funext i
  by_cases hi : i = c <;> simp [updateColInfo, hi, h]

/-- C2: folding the leaves `gte(col,5)`, `lt(col,10)`, `is_not_null(col)`
in any order yields the range `[5, 10)` with nulls disallowed, and on any
column and side the leaf folded last determines that side's bound and
exclusivity, whatever was folded before it. -/
theorem c2_range_folding :
    (∀ (col : Nat) (l : List SScalarFunction),
      l.Perm [gteLeaf col 5, ltLeaf col 10, isNotNullLeaf col] →
      (constructColInfo fmFilter l initColInfoMap).map
          (fun m => buildDoubleRange (m col)) =
        some (some ⟨5, false, false, 10, false, true, false⟩)) ∧
    (∀ (pre : List SScalarFunction) (col : Nat) (v : Int)
      (m : Nat → FilterInfo),
      constructColInfo fmFilter (pre ++ [gteLeaf col v]) initColInfoMap =
          some m →
        (m col).left_ = some v ∧ (m col).leftExclusive_ = false) ∧
    (∀ (pre : List SScalarFunction) (col : Nat) (v : Int)
      (m : Nat → FilterInfo),
      constructColInfo fmFilter (pre ++ [gtLeaf col v]) initColInfoMap =
          some m →
        (m col).left_ = some v ∧ (m col).leftExclusive_ = true) ∧
    (∀ (pre : List SScalarFunction) (col : Nat) (v : Int)
      (m : Nat → FilterInfo),
      constructColInfo fmFilter (pre ++ [lteLeaf col v]) initColInfoMap =
          some m →
        (m col).right_ = some v ∧ (m col).rightExclusive_ = false) ∧
    (∀ (pre : List SScalarFunction) (col : Nat) (v : Int)
      (m : Nat → FilterInfo),
      constructColInfo fmFilter (pre ++ [ltLeaf col v]) initColInfoMap =
          some m →
        (m col).right_ = some v ∧ (m col).rightExclusive_ = true) := by
  refine ⟨?_, ?_, ?_, ?_, ?_⟩
  · intro col l hperm
    have htotal : ∀ x ∈ l, ∀ m, (foldFilterLeaf fmFilter m x).isSome := by
      intro x hx m
      have hx3 : x ∈ [gteLeaf col 5, ltLeaf col 10, isNotNullLeaf col] :=
        hperm.mem_iff.mp hx
      simp only [List.mem_cons, List.not_mem_nil, or_false] at hx3
      rcases hx3 with rfl | rfl | rfl <;>
        simp [foldFilterLeaf_gte, foldFilterLeaf_lt, foldFilterLeaf_isNotNull]
    have hcomm : ∀ x ∈ l, ∀ y ∈ l, ∀ z,
        (fun m s => (foldFilterLeaf fmFilter m s).getD m)
            ((fun m s => (foldFilterLeaf fmFilter m s).getD m) z x) y =
          (fun m s => (foldFilterLeaf fmFilter m s).getD m)
            ((fun m s => (foldFilterLeaf fmFilter m s).getD m) z y) x := by
      intro x hx y hy z
      have hx3 : x ∈ [gteLeaf col 5, ltLeaf col 10, isNotNullLeaf col] :=
        hperm.mem_iff.mp hx
      have hy3 : y ∈ [gteLeaf col 5, ltLeaf col 10, isNotNullLeaf col] :=
        hperm.mem_iff.mp hy
      simp only [List.mem_cons, List.not_mem_nil, or_false] at hx3 hy3
      rcases hx3 with rfl | rfl | rfl <;> rcases hy3 with rfl | rfl | rfl <;>
        simp only [foldFilterLeaf_gte, foldFilterLeaf_lt,
          foldFilterLeaf_isNotNull, Option.getD_some] <;>
        exact updateColInfo_comm _ _ _ _ (fun info => rfl)
    unfold constructColInfo
    rw [foldlM_eq_foldl_of_total _ _ htotal, hperm.foldl_eq' hcomm]
    simp [List.foldl, foldFilterLeaf_gte, foldFilterLeaf_lt,
      foldFilterLeaf_isNotNull, updateColInfo, buildDoubleRange,
      FilterInfo.setLeft, FilterInfo.setRight, FilterInfo.forbidsNull,
      initColInfoMap]
  · intro pre col v m hm
    unfold constructColInfo at hm
    rw [List.foldlM_append] at hm
    rcases h1 : List.foldlM (foldFilterLeaf fmFilter) initColInfoMap pre with
      _ | m'
    · rw [h1] at hm; simp at hm
    · rw [h1] at hm
      simp [List.foldlM, foldFilterLeaf_gte] at hm
      subst hm
      simp [updateColInfo, FilterInfo.setLeft]
  · intro pre col v m hm
    unfold constructColInfo at hm
    rw [List.foldlM_append] at hm
    rcases h1 : List.foldlM (foldFilterLeaf fmFilter) initColInfoMap pre with
      _ | m'
    · rw [h1] at hm; simp at hm
    · rw [h1] at hm
      simp [List.foldlM, foldFilterLeaf_gt] at hm
      subst hm
      simp [updateColInfo, FilterInfo.setLeft]
  · intro pre col v m hm
    unfold constructColInfo at hm
    rw [List.foldlM_append] at hm
    rcases h1 : List.foldlM (foldFilterLeaf fmFilter) initColInfoMap pre with
      _ | m'
    · rw [h1] at hm; simp at hm
    · rw [h1] at hm
      simp [List.foldlM, foldFilterLeaf_lte] at hm
      subst hm
      simp [updateColInfo, FilterInfo.setRight]
  · intro pre col v m hm
    unfold constructColInfo at hm
    rw [List.foldlM_append] at hm
    rcases h1 : List.foldlM (foldFilterLeaf fmFilter) initColInfoMap pre with
      _ | m'
    · rw [h1] at hm; simp at hm
    · rw [h1] at hm
      simp [List.foldlM, foldFilterLeaf_lt] at hm
      subst hm
      simp [updateColInfo, FilterInfo.setRight]

/-- Witness for C2: a shuffled order of the three leaves produces
`[5, 10)` with nulls disallowed, and a `gt(0, 7)` leaf folded after a
`gte(0, 5)` leaf determines the lower bound. -/
theorem c2_range_folding_witness :
    (constructColInfo fmFilter
        [isNotNullLeaf 0, gteLeaf 0 5, ltLeaf 0 10] initColInfoMap).map
        (fun m => buildDoubleRange (m 0)) =
      some (some ⟨5, false, false, 10, false, true, false⟩) ∧
    ((updateColInfo
        (updateColInfo initColInfoMap 0 (FilterInfo.setLeft · 5 false)) 0
        (FilterInfo.setLeft · 7 true)) 0).left_ = some 7 ∧
    ((updateColInfo
        (updateColInfo initColInfoMap 0 (FilterInfo.setLeft · 5 false)) 0
        (FilterInfo.setLeft · 7 true)) 0).leftExclusive_ = true := by
  refine ⟨c2_range_folding.1 0 _ ?_, ?_⟩
  · exact (List.perm_append_comm :
      ([isNotNullLeaf 0] ++ [gteLeaf 0 5, ltLeaf 0 10]).Perm
        ([gteLeaf 0 5, ltLeaf 0 10] ++ [isNotNullLeaf 0]))
  · exact c2_range_folding.2.2.1 [gteLeaf 0 5] 0 7 _ rfl

mutual
/-- Structural size of an expression, used as a fuel bound for the
join-key extraction work list (the C++ loop terminates because each
iteration replaces the popped expression by strictly smaller ones). -/
def SExpr.sizeE : SExpr → Nat
  | .selection _ => 1
  | .literal _ => 1
  | .scalarFunc _ args _ => 1 + SExpr.sizeArgs args

/-- Total size of a list of expressions. -/
def SExpr.sizeArgs : List SExpr → Nat
  | [] => 0
  | e :: es => SExpr.sizeE e + SExpr.sizeArgs es
end

/-- The worklist loop of `extractJoinKeys` (`SubstraitToVeloxPlan.cpp`).
The C++ code keeps a `std::vector` of pending expressions and always
visits `back()`; the head of the list models the back of that vector, so
for an "and" the second argument is visited before the first.  An "eq"
appends one key pair (`args[0]`, `args[1]`), checked to be selections;
any other function name (`VELOX_NYI`), a non-scalar-function node
(`VELOX_FAIL`), an unresolvable anchor, or fewer than two arguments (an
out-of-bounds access) is fatal.  The `Nat` argument is termination fuel;
the size of the original expression always suffices. -/
def extractJoinKeysLoop (fm : FunctionMap) :
    Nat → List SExpr → List (Nat × Nat) → Option (List (Nat × Nat))
  | _, [], pairs => some pairs
  | 0, _ :: _, _ => none
  | fuel + 1, visited :: expressions, pairs =>
    match visited with
    | .scalarFunc ref args _ =>
      match findFunctionSpec fm ref with
      | none => none
      | some funcName =>
        if funcName = "and" then
          match args with
          | arg0 :: arg1 :: _ =>
            extractJoinKeysLoop fm fuel (arg1 :: arg0 :: expressions) pairs
          | _ => none
        else if funcName = "eq" then
          if args.all (fun arg => arg.selectionMsg.isSome) then
            match args with
            | arg0 :: arg1 :: _ =>
              match arg0.selectionMsg, arg1.selectionMsg with
              | some leftIdx, some rightIdx =>
                extractJoinKeysLoop fm fuel expressions
                  (pairs ++ [(leftIdx, rightIdx)])
              | _, _ => none
            | _ => none
          else none
        else none
    | _ => none

/-- `extractJoinKeys` (`SubstraitToVeloxPlan.cpp`): decompose a join
expression into left/right key-index pairs (the two parallel vectors of
the C++ code are modelled as one list of pairs; the code fills them in
lock step, so their lengths always agree). -/
def extractJoinKeys (fm : FunctionMap) (joinExpression : SExpr) :
    Option (List (Nat × Nat)) :=
  extractJoinKeysLoop fm (SExpr.sizeE joinExpression) [joinExpression] []

/-- The anchor table used by the join-decomposition statements. -/
def fmJoin : FunctionMap := [(0, "and"), (1, "eq"), (2, "or")]

/-- `eq(a, b)` over two field references. -/
def eqExpr (a b : Nat) : SExpr :=
  .scalarFunc 1 [.selection a, .selection b] .boolT

/-- `and(x, y)`. -/
def andExpr (x y : SExpr) : SExpr := .scalarFunc 0 [x, y] .boolT

/-- `or(x, y)`. -/
def orExpr (x y : SExpr) : SExpr := .scalarFunc 2 [x, y] .boolT

/-- C3 counterexample: the code decomposes `and(eq(0,1), eq(2,3))` into
`[(2,3), (0,1)]` — the right conjunct's pair first, because the worklist
is a stack — not `[(0,1), (2,3)]` as the claim states. -/
theorem c3_join_decomposition_counterexample :
    extractJoinKeys fmJoin (andExpr (eqExpr 0 1) (eqExpr 2 3)) =
        some [(2, 3), (0, 1)] ∧
    extractJoinKeys fmJoin (andExpr (eqExpr 0 1) (eqExpr 2 3)) ≠
        some [(0, 1), (2, 3)] := by
  exact ⟨rfl, by decide⟩

/-- C3 (amended): `and(eq(a,b), eq(c,d))` decomposes to `[(c,d), (a,b)]`
(the stack-based traversal emits the right conjunct's pair first); a lone
`eq(a,b)` gives `[(a,b)]` with no residual; a top-level "or", an "eq"
whose argument is not a field reference, and a non-scalar-function node
are all fatal. -/
theorem c3_join_decomposition :
    (∀ a b c d : Nat,
      extractJoinKeys fmJoin (andExpr (eqExpr a b) (eqExpr c d)) =
        some [(c, d), (a, b)]) ∧
    (∀ a b : Nat, extractJoinKeys fmJoin (eqExpr a b) = some [(a, b)]) ∧
    (∀ a b c d : Nat,
      extractJoinKeys fmJoin (orExpr (eqExpr a b) (eqExpr c d)) = none) ∧
    (∀ a : Nat, ∀ v : Int,
      extractJoinKeys fmJoin
        (.scalarFunc 1 [.selection a, .literal (.fp64 v)] .boolT) = none) ∧
    extractJoinKeys fmJoin (.literal (.boolean true)) = none := by
  exact ⟨fun a b c d => rfl, fun a b => rfl, fun a b c d => rfl,
    fun a v => rfl, rfl⟩

/-- `core::CallTypedExpr` as a call converter sees it: the function name
and the input expressions (`α` is the native expression type; the if/then
converter inspects only the name and the inputs). -/
structure CallTypedExpr (α : Type) where
  name : String
  inputs : List α

/-- The if/then interchange message built by the converter:
condition/result clauses plus the else branch (`β` is the interchange
expression type produced by the top-level expression converter). -/
structure IfThenExpr (β : Type) where
  ifs : List (β × β)
  elseValue : β

/-- The outcome of one call converter in the chain: it may decline
(return `std::nullopt`, letting the next converter try), fail fatally
(`VELOX_NYI`), or produce a converted expression. -/
inductive CallConvertResult (β : Type) where
  | declined
  | fatal
  | converted (e : IfThenExpr β)

/-- The clause-pairing loop of `VeloxToSubstraitIfThenConverter::convert`
(`for (int i = 0; i < last; i += 2)`): walk the inputs two at a time
emitting (condition, result) clauses; a trailing single element is the
else branch. -/
def pairUpIfClauses (f : α → β) : List α → List (β × β) × Option β
  | [] => ([], none)
  | [x] => ([], some (f x))
  | x :: y :: rest =>
    let (ps, e) := pairUpIfClauses f rest
    ((f x, f y) :: ps, e)

/-- `VeloxToSubstraitIfThenConverter::convert`
(`VeloxToSubstraitCallConverter.cpp`): decline unless the call is named
"if"; an even number of arguments is fatal; otherwise emit the
condition/result clauses and the trailing else, each argument converted
through the top-level converter `f`. -/
def ifThenConvert (f : α → β) (callTypeExpr : CallTypedExpr α) :
    CallConvertResult β :=
  if callTypeExpr.name ≠ "if" then .declined
  else if callTypeExpr.inputs.length % 2 ≠ 1 then .fatal
  else
    match pairUpIfClauses f callTypeExpr.inputs with
    | (ifs, some elseValue) => .converted ⟨ifs, elseValue⟩
    | (_, none) => .fatal

/-- On a list of odd length the pairing loop emits `(n-1)/2` clauses and
converts the last element as the else branch. -/
theorem pairUpIfClauses_odd (f : α → β) :
    ∀ l : List α, l.length % 2 = 1 →
      ∃ ps last, pairUpIfClauses f l = (ps, some (f last)) ∧
        ps.length = (l.length - 1) / 2 ∧ l.getLast? = some last := by
  intro l
  induction l using pairUpIfClauses.induct f with
  | case1 => intro h; simp at h
  | case2 x => intro h; exact ⟨[], x, rfl, by simp, rfl⟩
  | case3 x y rest ps0 e0 heq ih =>
    intro h
    simp only [List.length_cons, Nat.add_mod_right] at h
    have hmod : rest.length % 2 = 1 := by omega
    obtain ⟨ps, last, hpair, hlen, hlast⟩ := ih hmod
    refine ⟨(f x, f y) :: ps, last, ?_, ?_, ?_⟩
    · simp [pairUpIfClauses, hpair]
    · simp only [List.length_cons, hlen]
      have hpos : 1 ≤ rest.length := by omega
      omega
    · rcases rest with _ | ⟨r, rs⟩
      · simp at hmod
      · simpa using hlast

/-- C9: the if/then converter declines every call not named "if"; for a
call named "if" an even argument count is fatal, and an odd argument
count yields `(n-1)/2` condition/result clauses followed by the last
argument, converted, as the else branch. -/
theorem c9_ifthen_call_converter {α β : Type} (f : α → β) :
    (∀ call : CallTypedExpr α, call.name ≠ "if" →
      ifThenConvert f call = .declined) ∧
    (∀ call : CallTypedExpr α, call.name = "if" →
      call.inputs.length % 2 = 0 → ifThenConvert f call = .fatal) ∧
    (∀ call : CallTypedExpr α, call.name = "if" →
      call.inputs.length % 2 = 1 →
      ∃ ifs elseValue last,
        ifThenConvert f call = .converted ⟨ifs, elseValue⟩ ∧
        ifs.length = (call.inputs.length - 1) / 2 ∧
        call.inputs.getLast? = some last ∧ elseValue = f last) := by
  refine ⟨?_, ?_, ?_⟩
  · intro call hname
    simp [ifThenConvert, hname]
  · intro call hname hlen
    simp [ifThenConvert, hname, hlen]
  · intro call hname hlen
    obtain ⟨ps, last, hpair, hplen, hlast⟩ :=
      pairUpIfClauses_odd f call.inputs hlen
    exact ⟨ps, f last, last, by simp [ifThenConvert, hname, hlen, hpair],
      hplen, hlast, rfl⟩

/-- Witness for C9: a call named "plus" is declined, `if` with two
arguments is fatal, and `if` with three arguments emits one clause plus
the converted third argument as the else branch. -/
theorem c9_ifthen_call_converter_witness :
    ifThenConvert (id : Nat → Nat) ⟨"plus", [1, 2]⟩ =
        CallConvertResult.declined ∧
    ifThenConvert (id : Nat → Nat) ⟨"if", [1, 2]⟩ =
        CallConvertResult.fatal ∧
    ∃ ifs elseValue last,
      ifThenConvert (id : Nat → Nat) ⟨"if", [1, 2, 3]⟩ =
          CallConvertResult.converted ⟨ifs, elseValue⟩ ∧
      ifs.length = ((3 : Nat) - 1) / 2 ∧
      ([1, 2, 3] : List Nat).getLast? = some last ∧ elseValue = id last :=
  ⟨(c9_ifthen_call_converter id).1 ⟨"plus", [1, 2]⟩ (by decide),
    (c9_ifthen_call_converter id).2.1 ⟨"if", [1, 2]⟩ rfl (by decide),
    (c9_ifthen_call_converter id).2.2 ⟨"if", [1, 2, 3]⟩ rfl (by decide)⟩

/-- A parsed structured document, the shape `YAML::Node` presents to the
decoders in `SubstraitExtension.cpp`: a scalar string, a sequence, or a
map. -/
inductive YamlNode where
  | scalar (s : String)
  | seq (items : List YamlNode)
  | map (entries : List (String × YamlNode))

/-- `node["key"]`: defined only on maps; on any other node yaml-cpp
yields an undefined node, whose boolean test is false. -/
def YamlNode.lookup : YamlNode → String → Option YamlNode
  | .map entries, key => entries.lookup key
  | _, _ => none

/-- `Node::IsScalar()`. -/
def YamlNode.isScalar : YamlNode → Bool
  | .scalar _ => true
  | _ => false

/-- `Node::IsSequence()`. -/
def YamlNode.isSequence : YamlNode → Bool
  | .seq _ => true
  | _ => false

/-- The scalar payload (meaningful only when `isScalar`). -/
def YamlNode.scalarValue : YamlNode → String
  | .scalar s => s
  | _ => ""

/-- The sequence elements (empty on non-sequences). -/
def YamlNode.items : YamlNode → List YamlNode
  | .seq xs => xs
  | _ => []

/-- Modelled from yaml-cpp's `convert<bool>`: a scalar spelling a boolean
decodes, anything else makes `as<bool>` throw. -/
def YamlNode.asBool : YamlNode → Option Bool
  | .scalar s =>
    if s = "true" || s = "True" || s = "yes" || s = "on" then some true
    else if s = "false" || s = "False" || s = "no" || s = "off" then
      some false
    else none
  | _ => none

/-- Modelled from the spec: `SubstraitType::decode` (not under `src/`)
parses a type-expression string; the catalog claims never inspect the
parse, so the decoded type is carried as the string itself. -/
abbrev SubstraitTypeExpr := String

/-- See `SubstraitTypeExpr`. -/
def substraitTypeDecode (s : String) : SubstraitTypeExpr := s

/-- Split a character list at every occurrence of the delimiter — the
segments `std::getline` produces, including the trailing empty segment
left behind after a trailing delimiter. -/
def splitCharList (delim : Char) : List Char → List (List Char)
  | [] => [[]]
  | c :: cs =>
    if c = delim then [] :: splitCharList delim cs
    else
      match splitCharList delim cs with
      | [] => [[c]]
      | seg :: rest => (c :: seg) :: rest

/-- The `std::getline` loop of `decodeFunctionVariant`: after the loop
the variable holds the last line of the return-type expression (the
empty string when the expression is empty or ends in a newline). -/
def lastReturnLine (s : String) : String :=
  ((splitCharList '\n' s.data).getLastD []).asString

/-- A decoded function-variant argument: an enum argument (with its
`required` flag), a value argument carrying a type expression, or a bare
type argument. -/
inductive SubstraitFunctionArgument where
  | enumArgument (required : Bool)
  | valueArgument (type : SubstraitTypeExpr)
  | typeArgument
deriving DecidableEq, Repr

/-- `convert<SubstraitEnumArgument>::decode`: "options" must be a
sequence; `required` is false when absent, and `as<bool>` on a present
non-boolean value throws. -/
def decodeEnumArgument (node : YamlNode) : Option SubstraitFunctionArgument :=
  match node.lookup "options" with
  | some options =>
    if options.isSequence then
      match node.lookup "required" with
      | none => some (.enumArgument false)
      | some required => required.asBool.map (.enumArgument ·)
    else none
  | none => none

/-- `convert<SubstraitValueArgument>::decode`: "value" must be a scalar
type expression. -/
def decodeValueArgument (node : YamlNode) : Option SubstraitFunctionArgument :=
  match node.lookup "value" with
  | some value =>
    if value.isScalar then
      some (.valueArgument (substraitTypeDecode value.scalarValue))
    else none
  | none => none

/-- `convert<SubstraitTypeArgument>::decode`: succeeds exactly when a
"type" element exists. -/
def decodeTypeArgument (node : YamlNode) : Option SubstraitFunctionArgument :=
  if (node.lookup "type").isSome then some .typeArgument else none

/-- The argument dispatch inside `decodeFunctionVariant`: an argument is
an enum argument if it declares "options", else a value argument if it
declares "value", else a bare type argument; the `as<...>` conversion
throws when the chosen decoder rejects the entry. -/
def decodeArgument (arg : YamlNode) : Option SubstraitFunctionArgument :=
  if (arg.lookup "options").isSome then decodeEnumArgument arg
  else if (arg.lookup "value").isSome then decodeValueArgument arg
  else decodeTypeArgument arg

/-- A decoded function variant; the name and the source uri are filled in
by the enclosing decoders, and only aggregate variants may carry an
intermediate type. -/
structure SubstraitFunctionVariant where
  name : String := ""
  uri : String := ""
  arguments : List SubstraitFunctionArgument := []
  returnType : SubstraitTypeExpr := ""
  intermediate : Option SubstraitTypeExpr := none
deriving DecidableEq, Repr

/-- `decodeFunctionVariant` (`SubstraitExtension.cpp`): a variant needs a
scalar "return" type expression — of which only the final line is
significant — and decodes its optional "args" sequence; a missing or
non-scalar "return", like a rejected argument, makes the decode fail,
which the calling `as<...>` turns into an exception. -/
def decodeFunctionVariant (node : YamlNode) :
    Option SubstraitFunctionVariant :=
  match node.lookup "return" with
  | some returnType =>
    if returnType.isScalar then
      let lastReturnType := lastReturnLine returnType.scalarValue
      let args :=
        match node.lookup "args" with
        | some args =>
          if args.isSequence then mapMOpt decodeArgument args.items
          else some []
        | none => some []
      args.map fun arguments =>
        { returnType := substraitTypeDecode lastReturnType
          arguments := arguments }
    else none
  | none => none

/-- `convert<SubstraitAggregateFunctionVariant>::decode`: decode the
variant, then the optional "intermediate" type; `as<std::string>` on a
non-scalar intermediate throws. -/
def decodeAggregateFunctionVariant (node : YamlNode) :
    Option SubstraitFunctionVariant :=
  match decodeFunctionVariant node with
  | none => none
  | some function =>
    match node.lookup "intermediate" with
    | none => some function
    | some intermediate =>
      match intermediate with
      | .scalar s =>
        some { function with intermediate := some (substraitTypeDecode s) }
      | _ => none

/-- `convert<SubstraitScalarFunction>::decode`: a function entry needs a
scalar "name"; when a non-empty "impls" sequence is present every impl
must decode (the `as<...>` inside the loop throws otherwise) and each
decoded variant receives the function's name; a missing, empty or
non-sequence "impls" yields a function with no variants. -/
def decodeScalarFunction (node : YamlNode) :
    Option (String × List SubstraitFunctionVariant) :=
  match node.lookup "name" with
  | some nameNode =>
    if nameNode.isScalar then
      let name := nameNode.scalarValue
      match node.lookup "impls" with
      | some impls =>
        if impls.isSequence && impls.items.length > 0 then
          (mapMOpt decodeFunctionVariant impls.items).map
            fun vs => (name, vs.map fun v => { v with name := name })
        else some (name, [])
      | none => some (name, [])
    else none
  | none => none

/-- `convert<SubstraitAggregateFunction>::decode`: as the scalar variant,
via `decodeAggregateFunctionVariant`. -/
def decodeAggregateFunction (node : YamlNode) :
    Option (String × List SubstraitFunctionVariant) :=
  match node.lookup "name" with
  | some nameNode =>
    if nameNode.isScalar then
      let name := nameNode.scalarValue
      match node.lookup "impls" with
      | some impls =>
        if impls.isSequence && impls.items.length > 0 then
          (mapMOpt decodeAggregateFunctionVariant impls.items).map
            fun vs => (name, vs.map fun v => { v with name := name })
        else some (name, [])
      | none => some (name, [])
    else none
  | none => none

/-- `convert<SubstraitTypeAnchor>::decode`: a type anchor needs a scalar
"name". -/
def decodeTypeAnchor (node : YamlNode) : Option String :=
  match node.lookup "name" with
  | some nameNode =>
    if nameNode.isScalar then some nameNode.scalarValue else none
  | none => none

/-- The decoded catalog of one source (and, after merging, of a whole
load): scalar variants, aggregate variants and (name, uri) type
anchors. -/
structure SubstraitExtensionModel where
  scalarFunctionVariants : List SubstraitFunctionVariant := []
  aggregateFunctionVariants : List SubstraitFunctionVariant := []
  types : List (String × String) := []
deriving DecidableEq, Repr

/-- One function section of `convert<SubstraitExtension>::decode`: decode
every function entry of a present sequence and concatenate their
variants, in order. -/
def decodeFunctionSection
    (decodeOne : YamlNode → Option (String × List SubstraitFunctionVariant)) :
    Option YamlNode → Option (List SubstraitFunctionVariant)
  | some sectionNode =>
    if sectionNode.isSequence then
      (mapMOpt decodeOne sectionNode.items).map
        fun fns => (fns.map Prod.snd).flatten
    else some []
  | none => some []

/-- The "types" section of `convert<SubstraitExtension>::decode`. -/
def decodeTypesSection : Option YamlNode → Option (List String)
  | some typesNode =>
    if typesNode.isSequence then mapMOpt decodeTypeAnchor typesNode.items
    else some []
  | none => some []

/-- `convert<SubstraitExtension>::decode`: a source document must declare
a scalar- or aggregate-function sequence (else the decode is rejected);
every entry of the present sections must decode. -/
def decodeExtension (node : YamlNode) : Option SubstraitExtensionModel :=
  let scalarFunctions := node.lookup "scalar_functions"
  let aggregateFunctions := node.lookup "aggregate_functions"
  let scalarFunctionsExists := scalarFunctions.elim false YamlNode.isSequence
  let aggregateFunctionsExists :=
    aggregateFunctions.elim false YamlNode.isSequence
  if !scalarFunctionsExists && !aggregateFunctionsExists then none
  else
    match decodeFunctionSection decodeScalarFunction scalarFunctions,
        decodeFunctionSection decodeAggregateFunction aggregateFunctions,
        decodeTypesSection (node.lookup "types") with
    | some scalarVariants, some aggregateVariants, some typeNames =>
      some
        { scalarFunctionVariants := scalarVariants
          aggregateFunctionVariants := aggregateVariants
          types := typeNames.map fun n => (n, "") }
    | _, _, _ => none

/-- `SubstraitExtension::loadExtension` (`SubstraitExtension.cpp`) over a
list of (uri, parse result) sources: `YAML::LoadFile(...).as<...>()`
throws either when the file cannot be parsed (`none`) or when any entry's
decode is rejected, aborting the whole load; otherwise every entry is
tagged with its source uri and all sources are merged in order. -/
def loadExtensionModel (yamlExtensionFiles : List (String × Option YamlNode)) :
    Option SubstraitExtensionModel :=
  match yamlExtensionFiles with
  | [] => some {}
  | (extensionUri, parsed) :: rest =>
    match parsed with
    | none => none
    | some doc =>
      match decodeExtension doc with
      | none => none
      | some substraitExtension =>
        match loadExtensionModel rest with
        | none => none
        | some merged =>
          some
            { scalarFunctionVariants :=
                substraitExtension.scalarFunctionVariants.map
                    (fun v => { v with uri := extensionUri }) ++
                  merged.scalarFunctionVariants
              aggregateFunctionVariants :=
                substraitExtension.aggregateFunctionVariants.map
                    (fun v => { v with uri := extensionUri }) ++
                  merged.aggregateFunctionVariants
              types :=
                substraitExtension.types.map (fun t => (t.1, extensionUri)) ++
                  merged.types }

/-- A fail-fast map fails whenever any element is rejected, wherever it
sits in the list. -/
theorem mapMOpt_eq_none_of_mem {f : α → Option β} {l : List α} {a : α}
    (ha : a ∈ l) (hfa : f a = none) : mapMOpt f l = none := by
  induction l with
  | nil => simp at ha
  | cons x xs ih =>
    rcases List.mem_cons.mp ha with rfl | hmem
    · simp [mapMOpt, hfa]
    · cases hfx : f x
      · simp [mapMOpt, hfx]
      · simp [mapMOpt, hfx, ih hmem]

/-- Only sequences have items. -/
theorem YamlNode.isSequence_of_mem_items {n x : YamlNode}
    (h : x ∈ n.items) : n.isSequence = true := by
  cases n <;> simp [YamlNode.items, YamlNode.isSequence] at h ⊢

/-- C4 counterexample: in a source that parses as a document and holds
one function with two variant entries, the first missing its required
"return" field and the second complete, the whole load fails (`none`) —
the complete entry is not loaded, contradicting the claimed skip. -/
def c4BadVariantNode : YamlNode := .map [("args", .seq [])]

/-- The complete variant entry next to `c4BadVariantNode`. -/
def c4GoodVariantNode : YamlNode := .map [("return", .scalar "i32")]

/-- A source document holding one scalar function whose impls are
`c4BadVariantNode` then `c4GoodVariantNode`. -/
def c4SourceDoc : YamlNode :=
  .map
    [("scalar_functions",
      .seq
        [.map
          [("name", .scalar "add"),
            ("impls", .seq [c4BadVariantNode, c4GoodVariantNode])]])]

theorem c4_entry_skip_counterexample :
    decodeFunctionVariant c4GoodVariantNode =
      some { returnType := "i32" } ∧
    c4BadVariantNode.lookup "return" = none ∧
    loadExtensionModel [("functions_test.yaml", some c4SourceDoc)] = none :=
  ⟨rfl, rfl, rfl⟩

/-- C4 (amended): an individual function-variant entry missing its
required "return" field is not skipped: its decode is rejected, the
rejection propagates through the enclosing function, section and document
decodes, and the whole load fails — exactly as for a source that cannot
be parsed at all. -/
theorem c4_entry_missing_field_fatal :
    (∀ node : YamlNode, node.lookup "return" = none →
      decodeFunctionVariant node = none) ∧
    (∀ node impls impl : YamlNode, node.lookup "impls" = some impls →
      impl ∈ impls.items → decodeFunctionVariant impl = none →
      decodeScalarFunction node = none) ∧
    (∀ doc sf fnNode : YamlNode, doc.lookup "scalar_functions" = some sf →
      fnNode ∈ sf.items → decodeScalarFunction fnNode = none →
      decodeExtension doc = none) ∧
    (∀ (sources : List (String × Option YamlNode)) (uri : String)
      (doc : YamlNode), (uri, some doc) ∈ sources →
      decodeExtension doc = none → loadExtensionModel sources = none) ∧
    (∀ (sources : List (String × Option YamlNode)) (uri : String),
      (uri, (none : Option YamlNode)) ∈ sources →
      loadExtensionModel sources = none) := by
  refine ⟨?_, ?_, ?_, ?_, ?_⟩
  · intro node h
    simp [decodeFunctionVariant, h]
  · intro node impls impl hlook hmem hnone
    have hseq := YamlNode.isSequence_of_mem_items hmem
    have hlen : 0 < impls.items.length :=
      List.length_pos.2 (List.ne_nil_of_mem hmem)
    have hmap := mapMOpt_eq_none_of_mem hmem hnone
    rcases hname : node.lookup "name" with _ | nameNode
    · simp [decodeScalarFunction, hname]
    · by_cases hsc : nameNode.isScalar
      · simp [decodeScalarFunction, hname, hsc, hlook, hseq, hlen, hmap]
      · simp [decodeScalarFunction, hname, hsc]
  · intro doc sf fnNode hlook hmem hnone
    have hseq := YamlNode.isSequence_of_mem_items hmem
    have hmap := mapMOpt_eq_none_of_mem hmem hnone
    simp [decodeExtension, hlook, hseq, decodeFunctionSection, hmap]
  · intro sources uri doc hmem hnone
    induction sources with
    | nil => simp at hmem
    | cons src rest ih =>
      rcases List.mem_cons.mp hmem with rfl | hmem2
      · simp [loadExtensionModel, hnone]
      · obtain ⟨u, parsed⟩ := src
        rcases parsed with _ | d
        · rfl
        · rcases hd : decodeExtension d with _ | e
          · simp [loadExtensionModel, hd]
          · simp [loadExtensionModel, hd, ih hmem2]
  · intro sources uri hmem
    induction sources with
    | nil => simp at hmem
    | cons src rest ih =>
      rcases List.mem_cons.mp hmem with rfl | hmem2
      · rfl
      · obtain ⟨u, parsed⟩ := src
        rcases parsed with _ | d
        · rfl
        · rcases hd : decodeExtension d with _ | e
          · simp [loadExtensionModel, hd]
          · simp [loadExtensionModel, hd, ih hmem2]

/-- Witness for C4's amended statement at the concrete source of the
counterexample, plus an unparseable source. -/
theorem c4_entry_missing_field_fatal_witness :
    decodeFunctionVariant c4BadVariantNode = none ∧
    loadExtensionModel [("functions_test.yaml", some c4SourceDoc)] = none ∧
    loadExtensionModel [("broken.yaml", none)] = none :=
  ⟨c4_entry_missing_field_fatal.1 c4BadVariantNode rfl,
    c4_entry_missing_field_fatal.2.2.2.1
      [("functions_test.yaml", some c4SourceDoc)] "functions_test.yaml"
      c4SourceDoc (by simp)
      (c4_entry_missing_field_fatal.2.2.1 c4SourceDoc
        (.seq
          [.map
            [("name", .scalar "add"),
              ("impls", .seq [c4BadVariantNode, c4GoodVariantNode])]])
        (.map
          [("name", .scalar "add"),
            ("impls", .seq [c4BadVariantNode, c4GoodVariantNode])])
        rfl (by simp [YamlNode.items])
        (c4_entry_missing_field_fatal.2.1
          (.map
            [("name", .scalar "add"),
              ("impls", .seq [c4BadVariantNode, c4GoodVariantNode])])
          (.seq [c4BadVariantNode, c4GoodVariantNode]) c4BadVariantNode rfl
          (by simp [YamlNode.items])
          (c4_entry_missing_field_fatal.1 c4BadVariantNode rfl))),
    c4_entry_missing_field_fatal.2.2.2.2 [("broken.yaml", none)]
      "broken.yaml" (by simp)⟩

/-- Two's-complement truncation of a 64-bit value to a signed 32-bit
value: the effect of the `(int32_t)` casts in the FetchRel conversion. -/
def toInt32 (x : Int) : Int := (x + 2 ^ 31) % 2 ^ 32 - 2 ^ 31

/-- Modelled from the spec: `SubstraitParser::makeNodeName` (not under
`src/`) builds the synthetic column name for plan node `nodeId`, column
`colIdx`. -/
def makeNodeName (nodeId colIdx : Nat) : String :=
  "n" ++ toString nodeId ++ "_" ++ toString colIdx

/-- An output schema (`RowType`): ordered (name, type) columns. -/
abbrev Schema := List (String × SType)

/-- Modelled from the spec: `toVeloxType` (TypeUtils, not under `src/`);
the modelled native and interchange type universes coincide, so the
conversion is the identity. -/
def toVeloxType (t : SType) : SType := t

/-- Velox typed expressions (`core::ITypedExpr`) as the inbound converter
builds them: field accesses, constants, calls. -/
inductive VExpr where
  | fieldAccess (name : String) (ty : SType)
  | constantV (lit : SLit)
  | callExpr (ty : SType) (args : List VExpr) (name : String)

/-- The Velox type of an expression. -/
def VExpr.typeOf : VExpr → SType
  | .fieldAccess _ ty => ty
  | .constantV lit => lit.typeOf
  | .callExpr ty _ _ => ty

/-- Modelled from the spec: the expression converter's `FieldReference`
overload (`SubstraitToVeloxExpr.cpp`, not under `src/`): field addressing
is index-based, the index must lie within the input schema, and a
reference whose segment is unset — the default instance `.selection()`
returns on a non-selection expression — is fatal. -/
def toVeloxExprField (sel : Option Nat) (inputType : Schema) :
    Option (String × SType) :=
  match sel with
  | some idx => inputType[idx]?
  | none => none

/-- Modelled from the spec: the recursive expression converter
(`SubstraitToVeloxExpr.cpp`, not under `src/`): selections become field
accesses (fatal outside the schema), literals become constants, and
scalar calls resolve their name through the plan's anchor table (fatal if
absent) and convert their arguments recursively. -/
def toVeloxExpr (fm : FunctionMap) : SExpr → Schema → Option VExpr
  | .selection idx, inputType =>
    (toVeloxExprField (some idx) inputType).map fun nt =>
      .fieldAccess nt.1 nt.2
  | .literal lit, _ => some (.constantV lit)
  | .scalarFunc ref args ty, inputType =>
    match findFunctionSpec fm ref with
    | none => none
    | some spec =>
      match toVeloxExprArgs args inputType with
      | none => none
      | some vargs =>
        some (.callExpr ty vargs (getNameBeforeDelimiter spec ':'))
where toVeloxExprArgs : List SExpr → Schema → Option (List VExpr)
  | [], _ => some []
  | e :: es, inputType =>
    match toVeloxExpr fm e inputType, toVeloxExprArgs es inputType with
    | some v, some vs => some (v :: vs)
    | _, _ => none

/-- Modelled from the spec: `SubstraitParser::findVeloxFunction` (not
under `src/`) resolves a function anchor to the Velox function name; an
unresolvable anchor is fatal. -/
def findVeloxFunction (fm : FunctionMap) (id : Nat) : Option String :=
  (findFunctionSpec fm id).map (getNameBeforeDelimiter · ':')

/-- `SortField::SortDirection`; `other` stands for the members the
converter does not support. -/
inductive SortDirection where
  | ascNullsFirst
  | ascNullsLast
  | descNullsFirst
  | descNullsLast
  | other
deriving DecidableEq, Repr

/-- `core::SortOrder`. -/
inductive SortOrder where
  | kAscNullsFirst
  | kAscNullsLast
  | kDescNullsFirst
  | kDescNullsLast
deriving DecidableEq, Repr

/-- One `SortField` of a SortRel: direction plus optional key
expression. -/
structure SSortField where
  direction : SortDirection
  expr : Option SExpr

/-- `JoinRel_JoinType`, the interchange join-type enum. -/
inductive SJoinType where
  | unspecified
  | inner
  | outer
  | left
  | right
  | leftSemi
  | rightSemi
  | anti
deriving DecidableEq, Repr

/-- `core::JoinType`, the native join-type enum. -/
inductive JoinType where
  | kInner
  | kLeft
  | kRight
  | kFull
  | kLeftSemi
  | kRightSemi
  | kAnti
deriving DecidableEq, Repr

/-- Modelled from the spec: `join::fromProto` (not under `src/`) maps the
interchange join-type enum 1:1 onto the native set; an unsupported
combination is fatal. -/
def joinFromProto : SJoinType → Option JoinType
  | .inner => some .kInner
  | .outer => some .kFull
  | .left => some .kLeft
  | .right => some .kRight
  | .leftSemi => some .kLeftSemi
  | .rightSemi => some .kRightSemi
  | .anti => some .kAnti
  | .unspecified => none

/-- One decoded in-memory batch (`RowVector`): the row count and the
decoded per-column values. -/
structure RowBatch where
  batchSize : Nat
  children : List (List SLit)
deriving DecidableEq, Repr

/-- Velox plan nodes (`core::PlanNode`) as the inbound converter builds
them. -/
inductive VNode where
  | tableScan (id : String) (outputType : Schema)
      (filters : List (String × DoubleRange))
  | valuesNode (id : String) (outputType : Schema) (vectors : List RowBatch)
  | filterNode (id : String) (condition : VExpr) (source : VNode)
  | projectNode (id : String) (names : List String)
      (expressions : List VExpr) (source : VNode)
  | aggregationNode (id : String) (step : AggregationStep)
      (groupingKeys : List (String × SType)) (aggregateNames : List String)
      (aggregates : List VExpr) (aggregateMasks : List (Option VExpr))
      (ignoreNullKeys : Bool) (source : VNode)
  | orderByNode (id : String) (sortingKeys : List (String × SType))
      (sortingOrders : List SortOrder) (isPart : Bool) (source : VNode)
  | limitNode (id : String) (offset : Int) (count : Int) (isPart : Bool)
      (source : VNode)
  | hashJoinNode (id : String) (joinType : JoinType)
      (leftKeys rightKeys : List (String × SType)) (filter : Option VExpr)
      (left right : VNode) (outputType : Schema)

/-- The output schema a node computes at construction (external
`core::PlanNode` semantics): filter/sort/limit preserve their input,
project pairs its names with its expression types, aggregation exposes
the grouping keys followed by the aggregate columns, scans/values/joins
carry the schema fixed at construction. -/
def VNode.outputType : VNode → Schema
  | .tableScan _ t _ => t
  | .valuesNode _ t _ => t
  | .filterNode _ _ src => src.outputType
  | .projectNode _ names exprs _ => names.zip (exprs.map VExpr.typeOf)
  | .aggregationNode _ _ keys aggNames aggs _ _ _ =>
    keys ++ aggNames.zip (aggs.map VExpr.typeOf)
  | .orderByNode _ _ _ _ src => src.outputType
  | .limitNode _ _ _ _ src => src.outputType
  | .hashJoinNode _ _ _ _ _ _ _ t => t

/-- The vectors of a ValuesNode (empty for any other node kind). -/
def VNode.vectorsOf : VNode → List RowBatch
  | .valuesNode _ _ vectors => vectors
  | _ => []

/-- The step of an AggregationNode (`none` for any other node kind). -/
def VNode.stepOf : VNode → Option AggregationStep
  | .aggregationNode _ step _ _ _ _ _ _ => some step
  | _ => none

/-- Substrait relations (`::substrait::Rel` and the nested rel messages)
as the inbound converter consumes them.  `unset` models a `Rel` with no
rel type set (the proto default instance); a missing optional input is
exactly that default instance, so `has_input()` is `input ≠ unset`, and
both the failed `has_input()` check (`VELOX_FAIL`) and dispatching on an
unset rel (`VELOX_NYI`) are the `unset → none` equation of the
converter. -/
inductive SRel where
  | unset
  | read (baseSchema : Option (List (String × SType)))
      (virtualTable : Option (List (List SLit))) (filter : Option SExpr)
  | filterRel (input : SRel) (condition : SExpr)
  | project (input : SRel) (expressions : List SExpr)
      (emit : Option (List Nat))
  | aggregate (input : SRel) (groupings : List (List SExpr))
      (measures : List SMeasure)
  | sort (input : SRel) (sorts : List SSortField)
  | fetch (input : SRel) (offset : Int) (count : Int)
  | join (left right : SRel) (joinType : SJoinType) (expression : SExpr)
      (postJoinFilter : Option SExpr)

/-- The virtual-table branch of the ReadRel conversion
(`toVeloxPlan(ReadRel&, RowTypePtr&)`): the batch size is the field count
of the **last** batch divided (truncating integer division) by the column
count (1 for an empty schema); every batch must then hold exactly
`batchSize * numColumns` fields (`VELOX_CHECK_EQ`), which are decoded
column-major into one `RowVector` per batch; a complex constant is
unsupported.  Reading `values(numVectors - 1)` of an empty values list is
an out-of-bounds proto access, modelled as failure. -/
def decodeRowValue (batchSize numColumns : Nat) (rowValue : List SLit) :
    Option RowBatch :=
  if rowValue.length = batchSize * numColumns then
    (mapMOpt
      (fun col =>
        mapMOpt
          (fun batchId =>
            match rowValue[col * batchSize + batchId]? with
            | some field =>
              match field with
              | .complexLit => none
              | lit => some lit
            | none => none)
          (List.range batchSize))
      (List.range numColumns)).map
      fun children => RowBatch.mk batchSize children
  else none

/-- See `decodeRowValue`, which holds the per-batch loop body (the
`VELOX_CHECK_EQ` and the column-major decode). -/
def toVeloxPlanReadVirtual (values : List (List SLit)) (type : Schema)
    (planNodeId : Nat) : Option (VNode × Nat) :=
  match values.getLast? with
  | none => none
  | some lastValue =>
    match
      mapMOpt
        (decodeRowValue
          (if type.length = 0 then 1 else lastValue.length / type.length)
          type.length)
        values with
    | none => none
    | some vectors =>
      some (.valuesNode (toString planNodeId) type vectors, planNodeId + 1)

/-- `toVeloxPlan(ReadRel&, splitInfo)` (`SubstraitToVeloxPlan.cpp`):
resolve output names and types from the base schema, convert an attached
filter into per-column range filters for the table handle, then either
decode a virtual table into a ValuesNode or build a TableScanNode.
(Local-files split metadata is a side table irrelevant to the statements
proved here and is not modelled.) -/
def toVeloxPlanRead (fm : FunctionMap)
    (baseSchema : Option (List (String × SType)))
    (virtualTable : Option (List (List SLit))) (filter : Option SExpr)
    (planNodeId : Nat) : Option (VNode × Nat) :=
  let colNameList := (baseSchema.getD []).map Prod.fst
  let veloxTypeList := (baseSchema.getD []).map fun c => toVeloxType c.2
  let filtersResult :=
    match filter with
    | none => some []
    | some f => toVeloxFilter fm colNameList veloxTypeList f
  match filtersResult with
  | none => none
  | some filters =>
    let outNames :=
      (List.range colNameList.length).map (makeNodeName planNodeId)
    let outputType := outNames.zip veloxTypeList
    match virtualTable with
    | some values => toVeloxPlanReadVirtual values outputType planNodeId
    | none =>
      some (.tableScan (toString planNodeId) outputType filters,
        planNodeId + 1)

/-- One measure of the AggregateRel conversion: the optional mask (a
present filter converts — fatally on failure — and is downcast to a
field access, a failed downcast yielding a null mask), the function name
resolved through the anchor table (fatal if unresolvable), the converted
arguments and the declared output type. -/
def toVeloxMeasure (fm : FunctionMap) (inputType : Schema)
    (measure : SMeasure) : Option (Option (Option VExpr) × VExpr) :=
  let maskResult :=
    match measure.filter with
    | none => some none
    | some substraitAggMask =>
      match toVeloxExpr fm substraitAggMask inputType with
      | none => none
      | some e =>
        match e with
        | .fieldAccess _ _ => some (some (some e))
        | _ => some (some none)
  match maskResult with
  | none => none
  | some maskEntry =>
    match findVeloxFunction fm measure.functionReference with
    | none => none
    | some funcName =>
      match mapMOpt (fun arg => toVeloxExpr fm arg inputType)
          measure.arguments with
      | none => none
      | some aggParams =>
        some (maskEntry,
          .callExpr (toVeloxType measure.outputType) aggParams funcName)

/-- One `SortField` of the SortRel conversion: the direction must be one
of the four supported members, and a present key expression must convert
to a field access (`VELOX_CHECK`), else fatal; a sort field without an
expression contributes an order but no key. -/
def toVeloxSortField (fm : FunctionMap) (inputType : Schema)
    (sort : SSortField) : Option (SortOrder × Option (String × SType)) :=
  let orderResult :=
    match sort.direction with
    | .ascNullsFirst => some SortOrder.kAscNullsFirst
    | .ascNullsLast => some SortOrder.kAscNullsLast
    | .descNullsFirst => some SortOrder.kDescNullsFirst
    | .descNullsLast => some SortOrder.kDescNullsLast
    | .other => none
  match orderResult with
  | none => none
  | some order =>
    match sort.expr with
    | none => some (order, none)
    | some e =>
      match toVeloxExpr fm e inputType with
      | none => none
      | some v =>
        match v with
        | .fieldAccess n t => some (order, some (n, t))
        | _ => none

/-- `toVeloxPlan` over a relation (`SubstraitToVeloxPlan.cpp`): the
node-kind dispatch and the per-kind conversions of the inbound plan
converter, threading the `planNodeId_` counter (each node is named by the
counter value after its input was converted, and the counter is then
incremented). -/
def toVeloxPlanRel (fm : FunctionMap) : SRel → Nat → Option (VNode × Nat)
  | .unset, _ => none
  | .read baseSchema virtualTable filter, n =>
    toVeloxPlanRead fm baseSchema virtualTable filter n
  | .filterRel input condition, n =>
    match toVeloxPlanRel fm input n with
    | none => none
    | some (childNode, n1) =>
      match toVeloxExpr fm condition childNode.outputType with
      | none => none
      | some cond => some (.filterNode (toString n1) cond childNode, n1 + 1)
  | .project input expressions _, n =>
    match toVeloxPlanRel fm input n with
    | none => none
    | some (childNode, n1) =>
      match mapMOpt (fun e => toVeloxExpr fm e childNode.outputType)
          expressions with
      | none => none
      | some exprs =>
        let projectNames :=
          (List.range expressions.length).map (makeNodeName n1)
        some (.projectNode (toString n1) projectNames exprs childNode,
          n1 + 1)
  | .aggregate input groupings measures, n =>
    match toVeloxPlanRel fm input n with
    | none => none
    | some (childNode, n1) =>
      match toAggregationStep measures with
      | none => none
      | some aggStep =>
        match mapMOpt
            (fun groupingExpr =>
              toVeloxExprField groupingExpr.selectionMsg
                childNode.outputType)
            groupings.flatten with
        | none => none
        | some veloxGroupingExprs =>
          match mapMOpt (toVeloxMeasure fm childNode.outputType)
              measures with
          | none => none
          | some measureResults =>
            let aggExprs := measureResults.map Prod.snd
            let aggregateMasks := measureResults.filterMap Prod.fst
            let aggOutNames :=
              (List.range measures.length).map fun idx =>
                makeNodeName n1 (veloxGroupingExprs.length + idx)
            some (.aggregationNode (toString n1) aggStep veloxGroupingExprs
              aggOutNames aggExprs aggregateMasks false childNode, n1 + 1)
  | .sort input sorts, n =>
    match toVeloxPlanRel fm input n with
    | none => none
    | some (childNode, n1) =>
      match mapMOpt (toVeloxSortField fm childNode.outputType) sorts with
      | none => none
      | some sortResults =>
        some (.orderByNode (toString n1) (sortResults.filterMap Prod.snd)
          (sortResults.map Prod.fst) false childNode, n1 + 1)
  | .fetch input offset count, n =>
    match toVeloxPlanRel fm input n with
    | none => none
    | some (childNode, n1) =>
      some (.limitNode (toString n1) (toInt32 offset) (toInt32 count) false
        childNode, n1 + 1)
  | .join left right joinType expression postJoinFilter, n =>
    match toVeloxPlanRel fm left n with
    | none => none
    | some (leftNode, n1) =>
      match toVeloxPlanRel fm right n1 with
      | none => none
      | some (rightNode, n2) =>
        match joinFromProto joinType with
        | none => none
        | some jt =>
          let outputRowType :=
            if jt = .kLeftSemi then leftNode.outputType
            else if jt = .kRightSemi then rightNode.outputType
            else leftNode.outputType ++ rightNode.outputType
          match extractJoinKeys fm expression with
          | none => none
          | some keyPairs =>
            match
              mapMOpt
                (fun p =>
                  toVeloxExprField (some p.1)
                    (leftNode.outputType ++ rightNode.outputType))
                keyPairs,
              mapMOpt
                (fun p =>
                  toVeloxExprField (some p.2)
                    (leftNode.outputType ++ rightNode.outputType))
                keyPairs with
            | some leftKeys, some rightKeys =>
              match postJoinFilter with
              | none =>
                some (.hashJoinNode (toString n2) jt leftKeys rightKeys none
                  leftNode rightNode outputRowType, n2 + 1)
              | some pf =>
                match
                  toVeloxExpr fm pf
                    (leftNode.outputType ++ rightNode.outputType) with
                | none => none
                | some f =>
                  some (.hashJoinNode (toString n2) jt leftKeys rightKeys
                    (some f) leftNode rightNode outputRowType, n2 + 1)
            | _, _ => none

/-- A successful fail-fast map succeeds pointwise: every input position
maps to the output position by the function. -/
theorem mapMOpt_some_getElem {f : α → Option β} {l : List α} {bs : List β}
    (h : mapMOpt f l = some bs) :
    ∀ (i : Nat) (a : α), l[i]? = some a →
      ∃ b, bs[i]? = some b ∧ f a = some b := by
  induction l generalizing bs with
  | nil =>
    intro i a ha
    simp at ha
  | cons x xs ih =>
    intro i a ha
    rcases hfx : f x with _ | b
    · simp [mapMOpt, hfx] at h
    · rcases hrest : mapMOpt f xs with _ | brest
      · simp [mapMOpt, hfx, hrest] at h
      · simp [mapMOpt, hfx, hrest] at h
        subst h
        rcases i with _ | i
        · simp at ha
          subst ha
          exact ⟨b, by simp, hfx⟩
        · simp at ha
          obtain ⟨b2, hb2, hfb2⟩ := ih hrest i a ha
          exact ⟨b2, by simpa using hb2, hfb2⟩

/-- Inversion of a successful virtual-table decode: every batch passed
the `VELOX_CHECK_EQ`, so its field count is an exact multiple of the
column count and its row count is the exact quotient. -/
theorem decodeRowValue_some {batchSize numColumns : Nat}
    {rowValue : List SLit} {batch : RowBatch}
    (h : decodeRowValue batchSize numColumns rowValue = some batch) :
    rowValue.length = batchSize * numColumns ∧
      batch.batchSize = batchSize := by
  unfold decodeRowValue at h
  split at h
  · rename_i hlen
    rw [Option.map_eq_some'] at h
    obtain ⟨cs, hcs, hmk⟩ := h
    exact ⟨hlen, by rw [← hmk]⟩
  · simp at h

theorem toVeloxPlanReadVirtual_some_inv {values : List (List SLit)}
    {type : Schema} {planNodeId : Nat} {node : VNode} {n1 : Nat}
    (hconv : toVeloxPlanReadVirtual values type planNodeId = some (node, n1))
    (htype : 0 < type.length) :
    ∀ (i : Nat) (rowValue : List SLit), values[i]? = some rowValue →
      ∃ batch, node.vectorsOf[i]? = some batch ∧
        batch.batchSize = rowValue.length / type.length ∧
        type.length ∣ rowValue.length := by
  intro i rowValue hval
  unfold toVeloxPlanReadVirtual at hconv
  split at hconv
  · exact absurd hconv (by simp)
  · rename_i lastValue hlast
    split at hconv
    · exact absurd hconv (by simp)
    · rename_i vectors hmap
      simp only [Option.some_inj, Prod.mk.injEq] at hconv
      obtain ⟨hnode, hn1⟩ := hconv
      obtain ⟨b, hb, hfb⟩ := mapMOpt_some_getElem hmap i rowValue hval
      obtain ⟨hlen, hbs⟩ := decodeRowValue_some hfb
      have hne : ¬ type.length = 0 := by omega
      rw [if_neg hne] at hlen hbs
      refine ⟨b, ?_, ?_, ?_⟩
      · rw [← hnode]
        simpa [VNode.vectorsOf] using hb
      · rw [hbs, hlen, Nat.mul_div_cancel _ htype]
      · exact ⟨_, by rw [hlen, mul_comm]⟩

/-- C5: for a literal-data-backed Read with a non-empty schema, a
successful conversion gives every decoded batch the row count
`fields ÷ columns` with the division exact, and any batch whose field
count is not an exact multiple of the column count makes the conversion
fail. -/
theorem c5_virtual_table_row_count :
    (∀ (values : List (List SLit)) (type : Schema) (planNodeId : Nat)
      (node : VNode) (n1 : Nat) (i : Nat) (rowValue : List SLit)
      (batch : RowBatch),
      0 < type.length →
      toVeloxPlanReadVirtual values type planNodeId = some (node, n1) →
      values[i]? = some rowValue → node.vectorsOf[i]? = some batch →
      batch.batchSize = rowValue.length / type.length ∧
        type.length ∣ rowValue.length) ∧
    (∀ (values : List (List SLit)) (type : Schema) (planNodeId : Nat)
      (rowValue : List SLit),
      0 < type.length → rowValue ∈ values →
      ¬ type.length ∣ rowValue.length →
      toVeloxPlanReadVirtual values type planNodeId = none) := by
  constructor
  · intro values type planNodeId node n1 i rowValue batch htype hconv hval
      hbatch
    obtain ⟨b, hb, hsize, hdvd⟩ :=
      toVeloxPlanReadVirtual_some_inv hconv htype i rowValue hval
    rw [hbatch] at hb
    simp only [Option.some_inj] at hb
    subst hb
    exact ⟨hsize, hdvd⟩
  · intro values type planNodeId rowValue htype hmem hdvd
    rcases hconv : toVeloxPlanReadVirtual values type planNodeId with _ | p
    · rfl
    · obtain ⟨node, n1⟩ := p
      obtain ⟨i, hi, hvi⟩ := List.getElem_of_mem hmem
      obtain ⟨b, hb, hsize, hdvd2⟩ :=
        toVeloxPlanReadVirtual_some_inv hconv htype i rowValue
          (by rw [List.getElem?_eq_getElem hi]; exact congrArg some hvi)
      exact absurd hdvd2 hdvd

/-- Witness for C5: one batch of two fields over a one-column schema
decodes with row count 2 = 2 ÷ 1, and a three-field batch over a
two-column schema is fatal. -/
theorem c5_virtual_table_row_count_witness :
    ((2 : Nat) = 2 / 1 ∧ (1 : Nat) ∣ 2) ∧
    toVeloxPlanReadVirtual [[.fp64 1, .fp64 2, .fp64 3]]
      [("n0_0", .fp64), ("n0_1", .fp64)] 0 = none := by
  constructor
  · exact c5_virtual_table_row_count.1 [[.fp64 1, .fp64 2]] [("n0_0", .fp64)]
      0 (.valuesNode "0" [("n0_0", .fp64)] [⟨2, [[.fp64 1, .fp64 2]]⟩]) 1 0
      [.fp64 1, .fp64 2] ⟨2, [[.fp64 1, .fp64 2]]⟩ (by decide) rfl rfl rfl
  · exact c5_virtual_table_row_count.2 [[.fp64 1, .fp64 2, .fp64 3]]
      [("n0_0", .fp64), ("n0_1", .fp64)] 0 [.fp64 1, .fp64 2, .fp64 3]
      (by decide) (by simp) (by decide)

/-- C10: the inbound Limit (FetchRel) conversion stores the interchange
64-bit offset and count truncated to signed 32-bit values — congruent
modulo 2^32 and lying in [-2^31, 2^31) — and always marks the node
non-partial; hence a value at or above 2^31 is never preserved. -/
theorem c10_fetch_truncation :
    (∀ (fm : FunctionMap) (input : SRel) (offset count : Int) (n : Nat)
      (node : VNode) (n2 : Nat),
      toVeloxPlanRel fm (.fetch input offset count) n = some (node, n2) →
      ∃ (childNode : VNode) (n1 : Nat),
        toVeloxPlanRel fm input n = some (childNode, n1) ∧
        node = .limitNode (toString n1) (toInt32 offset) (toInt32 count)
          false childNode ∧ n2 = n1 + 1) ∧
    (∀ x : Int, toInt32 x % 2 ^ 32 = x % 2 ^ 32 ∧
      -(2 ^ 31) ≤ toInt32 x ∧ toInt32 x < 2 ^ 31) ∧
    (∀ x : Int, 2 ^ 31 ≤ x → toInt32 x ≠ x) := by
  have harith : ∀ x : Int, toInt32 x % 2 ^ 32 = x % 2 ^ 32 ∧
      -(2 ^ 31) ≤ toInt32 x ∧ toInt32 x < 2 ^ 31 := by
    intro x
    unfold toInt32
    have h31 : (2 : Int) ^ 31 = 2147483648 := by norm_num
    have h32 : (2 : Int) ^ 32 = 4294967296 := by norm_num
    rw [h31, h32]
    omega
  refine ⟨?_, harith, ?_⟩
  · intro fm input offset count n node n2 hconv
    simp only [toVeloxPlanRel] at hconv
    split at hconv
    · exact absurd hconv (by simp)
    · rename_i childNode n1 hchild
      simp only [Option.some_inj, Prod.mk.injEq] at hconv
      exact ⟨childNode, n1, hchild, hconv.1.symm, hconv.2.symm⟩
  · intro x hx
    have h := (harith x).2.2
    omega

/-- Witness for C10: a Limit over a values-backed Read stores truncated
offset/count, and 2^31 itself is not preserved. -/
theorem c10_fetch_truncation_witness :
    (∃ (childNode : VNode) (n1 : Nat),
      toVeloxPlanRel [] (.read (some [("a", .i64)]) none none) 0 =
        some (childNode, n1) ∧
      VNode.limitNode "1" (toInt32 5) (toInt32 2147483648) false
          (VNode.tableScan "0" [("n0_0", .i64)] []) =
        .limitNode (toString n1) (toInt32 5) (toInt32 2147483648) false
          childNode ∧ (2 : Nat) = n1 + 1) ∧
    toInt32 2147483648 ≠ 2147483648 :=
  ⟨c10_fetch_truncation.1 [] (.read (some [("a", .i64)]) none none) 5
      2147483648 0
      (.limitNode "1" (toInt32 5) (toInt32 2147483648) false
        (.tableScan "0" [("n0_0", .i64)] [])) 2 rfl,
    c10_fetch_truncation.2.2 2147483648 (by norm_num)⟩

/-- C6: an inbound Aggregate whose grouping expressions contain anything
but a field reference fails (the `.selection()` accessor yields the unset
default instance, whose conversion is fatal), and on success the stored
step is derived from the first measure's declared phase — its outbound
image is exactly that phase — or is Single when no measure exists. -/
theorem c6_aggregate_groupings_and_step :
    (∀ (fm : FunctionMap) (input : SRel) (groupings : List (List SExpr))
      (measures : List SMeasure) (n : Nat),
      (∃ g ∈ groupings.flatten, g.selectionMsg = none) →
      toVeloxPlanRel fm (.aggregate input groupings measures) n = none) ∧
    (∀ (fm : FunctionMap) (input : SRel) (groupings : List (List SExpr))
      (measures : List SMeasure) (n : Nat) (node : VNode) (n2 : Nat),
      toVeloxPlanRel fm (.aggregate input groupings measures) n =
        some (node, n2) →
      ∃ s, node.stepOf = some s ∧ toAggregationStep measures = some s ∧
        ((measures = [] ∧ s = .kSingle) ∨
          ∃ m ms, measures = m :: ms ∧ m.phase = toAggregationPhase s)) := by
  constructor
  · intro fm input groupings measures n h
    obtain ⟨g, hg, hgnone⟩ := h
    simp only [toVeloxPlanRel]
    rcases hchild : toVeloxPlanRel fm input n with _ | p
    · rfl
    · obtain ⟨childNode, n1⟩ := p
      rcases hstep : toAggregationStep measures with _ | aggStep
      · rfl
      · have hmap :
            mapMOpt
              (fun groupingExpr =>
                toVeloxExprField groupingExpr.selectionMsg
                  childNode.outputType)
              groupings.flatten = none :=
          mapMOpt_eq_none_of_mem hg (by simp [hgnone, toVeloxExprField])
        simp [hmap]
  · intro fm input groupings measures n node n2 hconv
    simp only [toVeloxPlanRel] at hconv
    split at hconv
    · exact absurd hconv (by simp)
    · rename_i childNode n1 hchild
      split at hconv
      · exact absurd hconv (by simp)
      · rename_i aggStep hstep
        split at hconv
        · exact absurd hconv (by simp)
        · rename_i veloxGroupingExprs hgroups
          split at hconv
          · exact absurd hconv (by simp)
          · rename_i measureResults hmeasures
            simp only [Option.some_inj, Prod.mk.injEq] at hconv
            refine ⟨aggStep, ?_, hstep, ?_⟩
            · rw [← hconv.1]
              rfl
            · rcases measures with _ | ⟨m, ms⟩
              · left
                refine ⟨rfl, ?_⟩
                simpa [toAggregationStep] using hstep.symm
              · right
                refine ⟨m, ms, rfl, ?_⟩
                cases hph : m.phase <;>
                  simp [toAggregationStep, hph] at hstep <;>
                  simp [← hstep, toAggregationPhase]

/-- Witness for C6: a literal grouping expression is fatal, and a
one-measure aggregate over a values-backed read stores the Partial step
derived from the Initial-to-Intermediate phase. -/
theorem c6_aggregate_groupings_and_step_witness :
    toVeloxPlanRel [(7, "sum:fp64")]
      (.aggregate (.read (some [("a", .fp64)]) none none)
        [[.literal (.boolean true)]] []) 0 = none ∧
    ∃ s, (VNode.aggregationNode "1" .kPartial [("n0_0", SType.fp64)]
          ["n1_1"]
          [.callExpr .fp64 [.fieldAccess "n0_0" .fp64] "sum"] [] false
          (.tableScan "0" [("n0_0", SType.fp64)] [])).stepOf = some s ∧
      toAggregationStep
          [⟨none, .initialToIntermediate, 7, [.selection 0], .fp64⟩] =
        some s ∧
      (([⟨none, .initialToIntermediate, 7, [.selection 0], .fp64⟩] :
          List SMeasure) = [] ∧ s = .kSingle ∨
        ∃ m ms,
          ([⟨none, .initialToIntermediate, 7, [.selection 0], .fp64⟩] :
            List SMeasure) = m :: ms ∧ m.phase = toAggregationPhase s) :=
  ⟨c6_aggregate_groupings_and_step.1 [(7, "sum:fp64")]
      (.read (some [("a", .fp64)]) none none) [[.literal (.boolean true)]]
      [] 0 ⟨.literal (.boolean true), by simp, rfl⟩,
    c6_aggregate_groupings_and_step.2 [(7, "sum:fp64")]
      (.read (some [("a", .fp64)]) none none) [[.selection 0]]
      [⟨none, .initialToIntermediate, 7, [.selection 0], .fp64⟩] 0
      (.aggregationNode "1" .kPartial [("n0_0", SType.fp64)] ["n1_1"]
        [.callExpr .fp64 [.fieldAccess "n0_0" .fp64] "sum"] [] false
        (.tableScan "0" [("n0_0", SType.fp64)] [])) 2 rfl⟩

/-- C8: whenever an inbound Join converts, the resulting node's output
schema is the concatenation of the converted left schema and the
converted right schema, except that a left-semi join keeps exactly the
left schema and a right-semi join exactly the right schema. -/
theorem c8_join_output_schema :
    ∀ (fm : FunctionMap) (left right : SRel) (joinType : SJoinType)
      (expression : SExpr) (postJoinFilter : Option SExpr) (n : Nat)
      (node : VNode) (n3 : Nat),
      toVeloxPlanRel fm (.join left right joinType expression postJoinFilter)
          n = some (node, n3) →
      ∃ (leftNode rightNode : VNode) (n1 n2 : Nat) (jt : JoinType),
        toVeloxPlanRel fm left n = some (leftNode, n1) ∧
        toVeloxPlanRel fm right n1 = some (rightNode, n2) ∧
        joinFromProto joinType = some jt ∧
        node.outputType =
          (if jt = .kLeftSemi then leftNode.outputType
            else if jt = .kRightSemi then rightNode.outputType
            else leftNode.outputType ++ rightNode.outputType) := by
  intro fm left right joinType expression postJoinFilter n node n3 hconv
  simp only [toVeloxPlanRel] at hconv
  split at hconv
  · exact absurd hconv (by simp)
  · rename_i leftNode n1 hleft
    split at hconv
    · exact absurd hconv (by simp)
    · rename_i rightNode n2 hright
      split at hconv
      · exact absurd hconv (by simp)
      · rename_i jt hjt
        split at hconv
        · exact absurd hconv (by simp)
        · rename_i keyPairs hkeys
          split at hconv
          · rename_i leftKeys rightKeys hlk hrk
            split at hconv
            · simp only [Option.some_inj, Prod.mk.injEq] at hconv
              exact ⟨leftNode, rightNode, n1, n2, jt, hleft, hright, hjt,
                by rw [← hconv.1]; rfl⟩
            · rename_i pf
              split at hconv
              · exact absurd hconv (by simp)
              · rename_i f hf
                simp only [Option.some_inj, Prod.mk.injEq] at hconv
                exact ⟨leftNode, rightNode, n1, n2, jt, hleft, hright, hjt,
                  by rw [← hconv.1]; rfl⟩
          · exact absurd hconv (by simp)

/-- Witness for C8: an inner equi-join of two one-column reads carries
the concatenated schema. -/
theorem c8_join_output_schema_witness :
    ∃ (leftNode rightNode : VNode) (n1 n2 : Nat) (jt : JoinType),
      toVeloxPlanRel fmJoin (.read (some [("a", .i64)]) none none) 0 =
        some (leftNode, n1) ∧
      toVeloxPlanRel fmJoin (.read (some [("b", .i64)]) none none) n1 =
        some (rightNode, n2) ∧
      joinFromProto .inner = some jt ∧
      (VNode.hashJoinNode "2" .kInner [("n0_0", SType.i64)]
          [("n1_0", SType.i64)] none
          (.tableScan "0" [("n0_0", SType.i64)] [])
          (.tableScan "1" [("n1_0", SType.i64)] [])
          [("n0_0", SType.i64), ("n1_0", SType.i64)]).outputType =
        (if jt = .kLeftSemi then leftNode.outputType
          else if jt = .kRightSemi then rightNode.outputType
          else leftNode.outputType ++ rightNode.outputType) :=
  c8_join_output_schema fmJoin (.read (some [("a", .i64)]) none none)
    (.read (some [("b", .i64)]) none none) .inner (eqExpr 0 1) none 0
    (.hashJoinNode "2" .kInner [("n0_0", SType.i64)] [("n1_0", SType.i64)]
      none (.tableScan "0" [("n0_0", SType.i64)] [])
      (.tableScan "1" [("n1_0", SType.i64)] [])
      [("n0_0", SType.i64), ("n1_0", SType.i64)]) 3 rfl

/-- Modelled from the spec: the outbound expression converter
(`VeloxToSubstraitExpr.cpp`, not under `src/`) with its call-converter
chain: field accesses address the input schema by index (fatal when the
name is absent), constants become literals, and a call goes through the
converter chain, abstracted as the `scalarRef` anchor lookup — every
converter declining (no anchor) is fatal. -/
def toSubstraitExpr (scalarRef : String → Option Nat) :
    VExpr → Schema → Option SExpr
  | .fieldAccess name _, inputType =>
    match inputType.findIdx? (fun c => c.1 = name) with
    | none => none
    | some idx => some (.selection idx)
  | .constantV lit, _ => some (.literal lit)
  | .callExpr ty args name, inputType =>
    match scalarRef name with
    | none => none
    | some ref =>
      match toSubstraitExprArgs args inputType with
      | none => none
      | some sargs => some (.scalarFunc ref sargs ty)
where toSubstraitExprArgs : List VExpr → Schema → Option (List SExpr)
  | [], _ => some []
  | e :: es, inputType =>
    match toSubstraitExpr scalarRef e inputType,
        toSubstraitExprArgs es inputType with
    | some v, some vs => some (v :: vs)
    | _, _ => none

/-- The argument loop of the outbound measure conversion: a
`CallTypedExpr` argument is `VELOX_NYI`, anything else converts through
the expression converter. -/
def toSubstraitAggArgs (scalarRef : String → Option Nat)
    (inputType : Schema) : List VExpr → Option (List SExpr)
  | [] => some []
  | arg :: rest =>
    match arg with
    | .callExpr _ _ _ => none
    | e =>
      match toSubstraitExpr scalarRef e inputType,
          toSubstraitAggArgs scalarRef inputType rest with
      | some v, some vs => some (v :: vs)
      | _, _ => none

/-- The measure loop of the outbound Aggregation conversion
(`toSubstrait(arena, AggregationNode, AggregateRel*)`): for each
aggregate, fetch the mask with `aggregateMasks.at(i)` (an out-of-range
access throws when fewer masks than aggregates were stored — modelled as
failure), convert a present mask, reject call arguments (`VELOX_NYI`),
resolve the function through the aggregate lookup (`VELOX_NYI` when it
has no value), and emit the measure with the node's step mapped to its
phase. -/
def toSubstraitMeasures (scalarRef aggRef : String → Option Nat)
    (inputType : Schema) (step : AggregationStep) (aggregates : List VExpr)
    (aggregateMasks : List (Option VExpr)) : Option (List SMeasure) :=
  mapMOpt
    (fun i =>
      match aggregateMasks[i]? with
      | none => none
      | some aggMaskExpr =>
        match
          (match aggMaskExpr with
            | none => some none
            | some mask =>
              (toSubstraitExpr scalarRef mask inputType).map some) with
        | none => none
        | some aggFilter =>
          match aggregates[i]? with
          | none => none
          | some agg =>
            match agg with
            | .callExpr ty args funName =>
              match toSubstraitAggArgs scalarRef inputType args with
              | none => none
              | some sargs =>
                match aggRef funName with
                | none => none
                | some ref =>
                  some (⟨aggFilter, toAggregationPhase step, ref, sargs,
                    ty⟩ : SMeasure)
            | _ => none)
    (List.range aggregates.length)

/-- The join-condition composition of the outbound Join conversion: one
"eq" call per key pair, the residual filter appended, and more than one
conjunct wrapped in a single "and" call. -/
def composeJoinCondition (leftKeys rightKeys : List (String × SType))
    (filter : Option VExpr) : VExpr :=
  match
    ((leftKeys.zip rightKeys).map fun ks =>
      VExpr.callExpr .boolT
        [.fieldAccess ks.1.1 ks.1.2, .fieldAccess ks.2.1 ks.2.2] "eq") ++
      (match filter with
        | some f => [f]
        | none => []) with
  | [single] => single
  | l => .callExpr .boolT l "and"

/-- `VeloxToSubstraitPlanConvertor::toSubstrait(arena, planNode, rel)`
(`VeloxToSubstraitPlan.cpp`): the ordered dynamic-cast dispatch over node
kinds.  Filter, Values, Project, Aggregation and Join nodes convert
recursively (an unsupported join type raises `VELOX_UNSUPPORTED`); a node
of any other kind matches no branch and the function returns with the
output `Rel` untouched — the unset default instance — instead of
failing. -/
def toSubstraitRel (scalarRef aggRef : String → Option Nat) :
    VNode → Option SRel
  | .filterNode _ condition source =>
    match toSubstraitRel scalarRef aggRef source with
    | none => none
    | some input =>
      match toSubstraitExpr scalarRef condition source.outputType with
      | none => none
      | some cond => some (.filterRel input cond)
  | .valuesNode _ outputType vectors =>
    some (.read (some outputType)
      (some (vectors.map fun rowVector => rowVector.children.flatten)) none)
  | .projectNode _ _ expressions source =>
    match toSubstraitRel scalarRef aggRef source with
    | none => none
    | some input =>
      match
        mapMOpt (fun e => toSubstraitExpr scalarRef e source.outputType)
          expressions with
      | none => none
      | some exprs =>
        some (.project input exprs
          (some ((List.range expressions.length).map
            fun i => source.outputType.length + i)))
  | .aggregationNode _ step groupingKeys _ aggregates aggregateMasks _
      source =>
    match toSubstraitRel scalarRef aggRef source with
    | none => none
    | some input =>
      if aggregates.length < aggregateMasks.length then none
      else
        match
          mapMOpt
            (fun key =>
              toSubstraitExpr scalarRef (.fieldAccess key.1 key.2)
                source.outputType)
            groupingKeys with
        | none => none
        | some groupingExprs =>
          match
            toSubstraitMeasures scalarRef aggRef source.outputType step
              aggregates aggregateMasks with
          | none => none
          | some measures => some (.aggregate input [groupingExprs] measures)
  | .hashJoinNode _ joinType leftKeys rightKeys filter left right _ =>
    if joinType = .kInner then
      match toSubstraitRel scalarRef aggRef left with
      | none => none
      | some leftRel =>
        match toSubstraitRel scalarRef aggRef right with
        | none => none
        | some rightRel =>
          if rightKeys.length < leftKeys.length then none
          else
            match
              toSubstraitExpr scalarRef
                (composeJoinCondition leftKeys rightKeys filter)
                (left.outputType ++ right.outputType) with
            | none => none
            | some expr => some (.join leftRel rightRel .inner expr none)
    else none
  | _ => some .unset

/-- Whether an interchange tree is fully converted: no node of the tree
is the unset default `Rel`. -/
def SRel.complete : SRel → Bool
  | .unset => false
  | .read _ _ _ => true
  | .filterRel input _ => input.complete
  | .project input _ _ => input.complete
  | .aggregate input _ _ => input.complete
  | .sort input _ => input.complete
  | .fetch input _ _ => input.complete
  | .join left right _ _ _ => left.complete && right.complete

/-- Whether every node of a native tree has one of the five kinds the
outbound dispatcher recognises. -/
def allSupportedKinds : VNode → Bool
  | .tableScan _ _ _ => false
  | .orderByNode _ _ _ _ _ => false
  | .limitNode _ _ _ _ _ => false
  | .valuesNode _ _ _ => true
  | .filterNode _ _ src => allSupportedKinds src
  | .projectNode _ _ _ src => allSupportedKinds src
  | .aggregationNode _ _ _ _ _ _ _ src => allSupportedKinds src
  | .hashJoinNode _ _ _ _ _ left right _ =>
    allSupportedKinds left && allSupportedKinds right

/-- A constant anchor assignment, standing in for a collector/lookup pair
that accepts every call name. -/
def constAnchor : String → Option Nat := fun _ => some 0

/-- A native OrderBy over a Values node: a tree whose root kind the
outbound dispatcher does not recognise. -/
def c7UnsupportedInput : VNode :=
  .orderByNode "1" [] [] false (.valuesNode "0" [("a", .fp64)] [])

/-- C7 counterexample: converting an OrderBy node neither fails nor
yields a tree in which every input node was converted — the call
succeeds and returns the untouched unset relation, silently dropping the
whole subtree. -/
theorem c7_complete_or_fail_counterexample :
    toSubstraitRel constAnchor constAnchor c7UnsupportedInput =
      some .unset ∧
    ¬(toSubstraitRel constAnchor constAnchor c7UnsupportedInput = none ∨
      ∃ r, toSubstraitRel constAnchor constAnchor c7UnsupportedInput =
          some r ∧ r.complete = true) := by
  refine ⟨rfl, ?_⟩
  rintro (h | ⟨r, hr, hc⟩)
  · exact Option.noConfusion h
  · have hr2 : (some SRel.unset : Option SRel) = some r := hr
    injection hr2 with hr3
    rw [← hr3] at hc
    exact absurd hc (by decide)

/-- C7 (amended): the outbound dispatcher raises a synchronous failure
for an unsupported join type, but a native node whose kind is outside
{Filter, Values, Project, Aggregation, Join} — a table scan, an order-by,
a limit — is silently left unconverted: the call succeeds and returns the
unset relation in its place.  Only for trees built solely from the five
recognised kinds does a successful conversion return a fully converted
tree. -/
theorem c7_dispatch_fallthrough :
    (∀ (scalarRef aggRef : String → Option Nat) (id : String) (t : Schema)
      (filters : List (String × DoubleRange)),
      toSubstraitRel scalarRef aggRef (.tableScan id t filters) =
        some .unset) ∧
    (∀ (scalarRef aggRef : String → Option Nat) (id : String)
      (keys : List (String × SType)) (orders : List SortOrder) (b : Bool)
      (src : VNode),
      toSubstraitRel scalarRef aggRef (.orderByNode id keys orders b src) =
        some .unset) ∧
    (∀ (scalarRef aggRef : String → Option Nat) (id : String)
      (offset count : Int) (b : Bool) (src : VNode),
      toSubstraitRel scalarRef aggRef (.limitNode id offset count b src) =
        some .unset) ∧
    (∀ (scalarRef aggRef : String → Option Nat) (id : String)
      (jt : JoinType) (lks rks : List (String × SType))
      (f : Option VExpr) (l r : VNode) (t : Schema), jt ≠ .kInner →
      toSubstraitRel scalarRef aggRef
        (.hashJoinNode id jt lks rks f l r t) = none) ∧
    (∀ (scalarRef aggRef : String → Option Nat) (node : VNode) (r : SRel),
      allSupportedKinds node = true →
      toSubstraitRel scalarRef aggRef node = some r →
      r.complete = true) := by
  refine ⟨fun _ _ _ _ _ => rfl, fun _ _ _ _ _ _ _ => rfl,
    fun _ _ _ _ _ _ _ => rfl, ?_, ?_⟩
  · intro scalarRef aggRef id jt lks rks f l r t hne
    simp [toSubstraitRel, hne]
  · intro scalarRef aggRef node
    induction node with
    | tableScan id t filters =>
      intro r hsupp hconv
      simp [allSupportedKinds] at hsupp
    | orderByNode id keys orders b src ih =>
      intro r hsupp hconv
      simp [allSupportedKinds] at hsupp
    | limitNode id offset count b src ih =>
      intro r hsupp hconv
      simp [allSupportedKinds] at hsupp
    | valuesNode id t vectors =>
      intro r hsupp hconv
      simp only [toSubstraitRel, Option.some_inj] at hconv
      rw [← hconv]
      rfl
    | filterNode id condition source ih =>
      intro r hsupp hconv
      simp only [allSupportedKinds] at hsupp
      simp only [toSubstraitRel] at hconv
      split at hconv
      · exact absurd hconv (by simp)
      · rename_i input hsrc
        split at hconv
        · exact absurd hconv (by simp)
        · rename_i cond hcond
          simp only [Option.some_inj] at hconv
          rw [← hconv]
          simpa [SRel.complete] using ih input hsupp hsrc
    | projectNode id names expressions source ih =>
      intro r hsupp hconv
      simp only [allSupportedKinds] at hsupp
      simp only [toSubstraitRel] at hconv
      split at hconv
      · exact absurd hconv (by simp)
      · rename_i input hsrc
        split at hconv
        · exact absurd hconv (by simp)
        · rename_i exprs hexprs
          simp only [Option.some_inj] at hconv
          rw [← hconv]
          simpa [SRel.complete] using ih input hsupp hsrc
    | aggregationNode id step keys aggNames aggs masks ignore source ih =>
      intro r hsupp hconv
      simp only [allSupportedKinds] at hsupp
      simp only [toSubstraitRel] at hconv
      split at hconv
      · exact absurd hconv (by simp)
      · rename_i input hsrc
        split at hconv
        · exact absurd hconv (by simp)
        · split at hconv
          · exact absurd hconv (by simp)
          · rename_i groupingExprs hkeys
            split at hconv
            · exact absurd hconv (by simp)
            · rename_i measures hmeasures
              simp only [Option.some_inj] at hconv
              rw [← hconv]
              simpa [SRel.complete] using ih input hsupp hsrc
    | hashJoinNode id jt lks rks f left right t ihl ihr =>
      intro r hsupp hconv
      simp only [allSupportedKinds, Bool.and_eq_true] at hsupp
      simp only [toSubstraitRel] at hconv
      split at hconv
      · split at hconv
        · exact absurd hconv (by simp)
        · rename_i leftRel hleft
          split at hconv
          · exact absurd hconv (by simp)
          · rename_i rightRel hright
            split at hconv
            · exact absurd hconv (by simp)
            · split at hconv
              · exact absurd hconv (by simp)
              · rename_i expr hexpr
                simp only [Option.some_inj] at hconv
                rw [← hconv]
                simp only [SRel.complete, Bool.and_eq_true]
                exact ⟨ihl leftRel hsupp.1 hleft, ihr rightRel hsupp.2 hright⟩
      · exact absurd hconv (by simp)

/-- Witness for C7's amended statement: a non-inner join is fatal, while
a Filter over a Values node converts to a complete tree. -/
theorem c7_dispatch_fallthrough_witness :
    toSubstraitRel constAnchor constAnchor
      (.hashJoinNode "2" .kLeft [] [] none (.valuesNode "0" [] [])
        (.valuesNode "1" [] []) []) = none ∧
    SRel.complete
      (.filterRel (.read (some [("a", SType.fp64)]) (some []) none)
        (.literal (.boolean true))) = true :=
  ⟨c7_dispatch_fallthrough.2.2.2.1 constAnchor constAnchor "2" .kLeft [] []
      none (.valuesNode "0" [] []) (.valuesNode "1" [] []) [] (by decide),
    c7_dispatch_fallthrough.2.2.2.2 constAnchor constAnchor
      (.filterNode "1" (.constantV (.boolean true))
        (.valuesNode "0" [("a", .fp64)] []))
      (.filterRel (.read (some [("a", SType.fp64)]) (some []) none)
        (.literal (.boolean true))) rfl rfl⟩
